import Mathlib

/-!
# LLMux protocol-translation engine: formal model and verification

A shallow embedding of the protocol-translation core of the LLMux gateway
(OpenAI-compatible clients talking to an Anthropic backend), together with
theorems settling the specification claims.

Python `dict`s are modelled as insertion-ordered association lists over a
JSON-like value type `JVal`; Python floats appear only as exact decimal
literals in the code under verification, so they are modelled as rationals.
Functions that can raise in Python are modelled with `Except Unit`.
-/

namespace LLMux

mutual
/-- JSON-like Python value: the payload type flowing through the translator. -/
inductive JVal : Type where
  | jnull : JVal
  | jbool : Bool → JVal
  | jint : Int → JVal
  | jfloat : ℚ → JVal
  | jstr : String → JVal
  | jarr : JArr → JVal
  | jobj : JObj → JVal
deriving Repr

/-- A Python list of `JVal`s. -/
inductive JArr : Type where
  | nil : JArr
  | cons : JVal → JArr → JArr
deriving Repr

/-- A Python dict: insertion-ordered association list (keys unique by use). -/
inductive JObj : Type where
  | nil : JObj
  | cons : String → JVal → JObj → JObj
deriving Repr
end

mutual

def JVal.beq : JVal → JVal → Bool
  | .jnull, .jnull => true
  | .jbool a, .jbool b => a = b
  | .jint a, .jint b => a = b
  | .jfloat a, .jfloat b => a = b
  | .jstr a, .jstr b => a = b
  | .jarr a, .jarr b => JArr.beq a b
  | .jobj a, .jobj b => JObj.beq a b
  | _, _ => false

def JArr.beq : JArr → JArr → Bool
  | .nil, .nil => true
  | .cons v a, .cons w b => JVal.beq v w && JArr.beq a b
  | _, _ => false

def JObj.beq : JObj → JObj → Bool
  | .nil, .nil => true
  | .cons k v a, .cons l w b => k = l && JVal.beq v w && JObj.beq a b
  | _, _ => false

end

mutual

theorem JVal.beq_iff_val : ∀ a b : JVal, JVal.beq a b = true ↔ a = b
  | .jnull, b => by cases b <;> simp [JVal.beq]
  | .jbool x, b => by cases b <;> simp [JVal.beq]
  | .jint x, b => by cases b <;> simp [JVal.beq]
  | .jfloat x, b => by cases b <;> simp [JVal.beq]
  | .jstr x, b => by cases b <;> simp [JVal.beq]
  | .jarr x, b => by
      cases b <;> simp [JVal.beq]
      exact JArr.beq_iff_arr x _
  | .jobj x, b => by
      cases b <;> simp [JVal.beq]
      exact JObj.beq_iff_obj x _

theorem JArr.beq_iff_arr : ∀ a b : JArr, JArr.beq a b = true ↔ a = b
  | .nil, b => by cases b <;> simp [JArr.beq]
  | .cons v a, b => by
      cases b with
      | nil => simp [JArr.beq]
      | cons w b =>
        simp only [JArr.beq, Bool.and_eq_true, JArr.cons.injEq]
        exact and_congr (JVal.beq_iff_val v w) (JArr.beq_iff_arr a b)

theorem JObj.beq_iff_obj : ∀ a b : JObj, JObj.beq a b = true ↔ a = b
  | .nil, b => by cases b <;> simp [JObj.beq]
  | .cons k v a, b => by
      cases b with
      | nil => simp [JObj.beq]
      | cons l w b =>
        simp only [JObj.beq, Bool.and_eq_true, JObj.cons.injEq, decide_eq_true_eq,
          and_assoc]
        exact and_congr Iff.rfl (and_congr (JVal.beq_iff_val v w) (JObj.beq_iff_obj a b))

end

instance : DecidableEq JVal := fun a b =>
  decidable_of_iff (JVal.beq a b = true) (JVal.beq_iff_val a b)

instance : DecidableEq JArr := fun a b =>
  decidable_of_iff (JArr.beq a b = true) (JArr.beq_iff_arr a b)

instance : DecidableEq JObj := fun a b =>
  decidable_of_iff (JObj.beq a b = true) (JObj.beq_iff_obj a b)

namespace JArr

/-- Build a `JArr` from a Lean list. -/
def ofList : List JVal → JArr
  | [] => .nil
  | v :: rest => .cons v (ofList rest)

/-- View a `JArr` as a Lean list. -/
def toList : JArr → List JVal
  | .nil => []
  | .cons v rest => v :: toList rest

/-- Python `len(xs) == 0` / truthiness helper. -/
def isEmpty : JArr → Bool
  | .nil => true
  | _ => false

end JArr

namespace JObj

/-- Build a `JObj` from a Lean association list. -/
def ofList : List (String × JVal) → JObj
  | [] => .nil
  | (k, v) :: rest => .cons k v (ofList rest)

/-- View a `JObj` as a Lean association list. -/
def toList : JObj → List (String × JVal)
  | .nil => []
  | .cons k v rest => (k, v) :: toList rest

/-- Python dict `.get(key)`: first binding wins (dicts never hold duplicate keys). -/
def get : JObj → String → Option JVal
  | .nil, _ => none
  | .cons k v rest, key => if k = key then some v else get rest key

/-- Python dict `.get(key, default)`. -/
def getD (d : JObj) (key : String) (dft : JVal) : JVal :=
  (d.get key).getD dft

/-- Python `key in dict`. -/
def hasKey (d : JObj) (key : String) : Bool :=
  (d.get key).isSome

/-- Python `del dict[key]` (removes the binding, keeping the order of the rest). -/
def del : JObj → String → JObj
  | .nil, _ => .nil
  | .cons k v rest, key => if k = key then del rest key else .cons k v (del rest key)

/-- Python `dict[key] = value`: updates in place if the key exists, preserving
its position, else appends at the end (insertion order). -/
def set : JObj → String → JVal → JObj
  | .nil, key, value => .cons key value .nil
  | .cons k v rest, key, value =>
    if k = key then .cons k value rest else .cons k v (set rest key value)

/-- Python truthiness of the dict (`len(d) > 0`). -/
def isEmpty : JObj → Bool
  | .nil => true
  | _ => false

end JObj

namespace JVal

/-- Python truthiness (`bool(v)`). -/
def pyTruthy : JVal → Bool
  | jnull => false
  | jbool b => b
  | jint n => n ≠ 0
  | jfloat q => q ≠ 0
  | jstr s => s ≠ ""
  | jarr xs => ¬ xs.isEmpty
  | jobj d => ¬ d.isEmpty

/-- Numeric reading of a value, in the sense of `isinstance(v, (int, float))`
(Python `bool` is a subclass of `int`). -/
def toQ : JVal → Option ℚ
  | jbool b => some (if b then 1 else 0)
  | jint n => some (n : ℚ)
  | jfloat q => some q
  | _ => none

/-- `isinstance(v, (int, float))` — includes `bool`. -/
def isNum (v : JVal) : Bool := (toQ v).isSome

/-- `isinstance(v, int)` — `int` or `bool`, not `float`. -/
def isInt : JVal → Bool
  | jbool _ => true
  | jint _ => true
  | _ => false

/-- Python `==` on the values we model: numeric values compare by value across
`int`/`float`/`bool`; other values compare structurally when of like kind, and
values of unlike kinds are unequal. -/
def pyEq (a b : JVal) : Bool :=
  match toQ a, toQ b with
  | some x, some y => x = y
  | some _, none => false
  | none, some _ => false
  | none, none => a = b

end JVal

/-! ## Model of `json.loads`

A small strict JSON parser over the character list of the input, with an
explicit fuel argument for structural termination.  It models the Python
standard-library parser on the fragment exercised by the repository: objects,
arrays, double-quoted strings (without escape sequences), integers, decimal
fractions, `true`/`false`/`null`.  Trailing non-whitespace input is rejected,
as `json.loads` rejects it.
-/

namespace Json

/-- The `0x7b` character. -/
def lbrace : Char := Char.ofNat 123

/-- The `0x7d` character. -/
def rbrace : Char := Char.ofNat 125

def isWs (c : Char) : Bool := c = ' ' || c = '\t' || c = '\n' || c = '\r'

def skipWs : List Char → List Char
  | [] => []
  | c :: rest => if isWs c then skipWs rest else c :: rest

/-- Consume a run of decimal digits, returning value, digit count, rest. -/
def digitsAcc : Nat → Nat → List Char → Nat × Nat × List Char
  | acc, n, [] => (acc, n, [])
  | acc, n, c :: rest =>
    if c.isDigit then digitsAcc (acc * 10 + (c.toNat - 48)) (n + 1) rest
    else (acc, n, c :: rest)

/-- Parse a JSON number at the head of the input. -/
def parseNum (cs : List Char) : Option (JVal × List Char) :=
  let signed : Bool × List Char :=
    match cs with
    | c :: rest => if c = '-' then (true, rest) else (false, cs)
    | [] => (false, [])
  match signed.2 with
  | [] => none
  | c :: _ =>
    if c.isDigit then
      let (ip, _, cs2) := digitsAcc 0 0 signed.2
      match cs2 with
      | d :: cs3 =>
        if d = '.' then
          match cs3 with
          | e :: _ =>
            if e.isDigit then
              let (fp, n, cs4) := digitsAcc 0 0 cs3
              let q : ℚ := (ip : ℚ) + (fp : ℚ) / ((10 : ℚ) ^ n)
              some (JVal.jfloat (if signed.1 then -q else q), cs4)
            else none
          | [] => none
        else
          some (JVal.jint (if signed.1 then -(ip : Int) else (ip : Int)), d :: cs3)
      | [] => some (JVal.jint (if signed.1 then -(ip : Int) else (ip : Int)), [])
    else none

/-- Parse a string body after the opening quote (no escape support). -/
def parseStrBody : List Char → Option (String × List Char)
  | [] => none
  | c :: rest =>
    if c = '"' then some ("", rest)
    else if c = '\\' then none
    else match parseStrBody rest with
      | some (s, cs) => some (String.mk (c :: s.toList), cs)
      | none => none

mutual

def parseVal : Nat → List Char → Option (JVal × List Char)
  | 0, _ => none
  | _ + 1, [] => none
  | fuel + 1, c :: rest =>
    if c = '"' then
      match parseStrBody rest with
      | some (s, cs) => some (JVal.jstr s, cs)
      | none => none
    else if c = lbrace then
      match skipWs rest with
      | d :: rest2 =>
        if d = rbrace then some (JVal.jobj .nil, rest2)
        else
          match parseObjItems fuel (d :: rest2) with
          | some (o, cs) => some (JVal.jobj o, cs)
          | none => none
      | [] => none
    else if c = '[' then
      match skipWs rest with
      | d :: rest2 =>
        if d = ']' then some (JVal.jarr .nil, rest2)
        else
          match parseArrItems fuel (d :: rest2) with
          | some (a, cs) => some (JVal.jarr a, cs)
          | none => none
      | [] => none
    else
      match c :: rest with
      | 't' :: 'r' :: 'u' :: 'e' :: cs => some (JVal.jbool true, cs)
      | 'f' :: 'a' :: 'l' :: 's' :: 'e' :: cs => some (JVal.jbool false, cs)
      | 'n' :: 'u' :: 'l' :: 'l' :: cs => some (JVal.jnull, cs)
      | cs => parseNum cs

/-- Parse one or more comma-separated array items, up to the closing bracket. -/
def parseArrItems : Nat → List Char → Option (JArr × List Char)
  | 0, _ => none
  | fuel + 1, cs =>
    match parseVal fuel cs with
    | some (v, cs2) =>
      match skipWs cs2 with
      | d :: cs3 =>
        if d = ']' then some (JArr.cons v .nil, cs3)
        else if d = ',' then
          match parseArrItems fuel (skipWs cs3) with
          | some (a, cs4) => some (JArr.cons v a, cs4)
          | none => none
        else none
      | [] => none
    | none => none

/-- Parse one or more comma-separated object entries, up to the closing brace. -/
def parseObjItems : Nat → List Char → Option (JObj × List Char)
  | 0, _ => none
  | fuel + 1, cs =>
    match cs with
    | c :: rest =>
      if c = '"' then
        match parseStrBody rest with
        | some (k, cs2) =>
          match skipWs cs2 with
          | d :: cs3 =>
            if d = ':' then
              match parseVal fuel (skipWs cs3) with
              | some (v, cs4) =>
                match skipWs cs4 with
                | e :: cs5 =>
                  if e = rbrace then some (JObj.cons k v .nil, cs5)
                  else if e = ',' then
                    match parseObjItems fuel (skipWs cs5) with
                    | some (o, cs6) => some (JObj.cons k v o, cs6)
                    | none => none
                  else none
                | [] => none
              | none => none
            else none
          | [] => none
        | none => none
      else none
    | [] => none

end

end Json

/-- Model of Python `json.loads` on a `str` argument: `none` models a raised
`json.JSONDecodeError`. -/
def json_loads (s : String) : Option JVal :=
  match Json.parseVal (s.length + 1) (Json.skipWs s.toList) with
  | some (v, rest) => if Json.skipWs rest = [] then some v else none
  | none => none

/-- Python `str.strip()`: drop leading and trailing whitespace. -/
def pyStrip (s : String) : String :=
  String.mk (((s.toList.dropWhile Json.isWs).reverse.dropWhile Json.isWs).reverse)

/-- Python `str.split(sep)` for a one-character separator, at character
level. -/
def splitCharsOn (sep : Char) : List Char → List (List Char)
  | [] => [[]]
  | c :: rest =>
    if c = sep then [] :: splitCharsOn sep rest
    else
      match splitCharsOn sep rest with
      | [] => [[c]]
      | l :: ls => (c :: l) :: ls

def startsList : List Char → List Char → Bool
  | [], _ => true
  | _ :: _, [] => false
  | a :: as, b :: bs => a = b && startsList as bs

/-- Substring test (Python `needle in haystack` on bytes/str). -/
def infixList (needle : List Char) : List Char → Bool
  | [] => startsList needle []
  | c :: rest => startsList needle (c :: rest) || infixList needle rest

/-! ## Backend request model

`src/anthropic/request_sanitizer.py` reads and writes a fixed set of keys of
the request dict and copies everything else through untouched.  The request is
therefore modelled as a record with one `Option JVal` field per key the engine
touches (`none` = key absent) plus an untouched remainder. -/

structure Req : Type where
  top_p : Option JVal
  temperature : Option JVal
  top_k : Option JVal
  tools : Option JVal
  thinking : Option JVal
  stop_sequences : Option JVal
  metadata : Option JVal
  service_tier : Option JVal
  tool_choice : Option JVal
  output_config : Option JVal
  context_management : Option JVal
  max_tokens : Option JVal
  system : Option JVal
  messages : Option JVal
  ctx1m : Option JVal
  rest : List (String × JVal)
deriving Repr, DecidableEq

/-- The empty request (no keys present). -/
def Req.empty : Req :=
  ⟨none, none, none, none, none, none, none, none, none, none, none, none,
   none, none, none, []⟩

/-! ## Request Sanitizer (`src/anthropic/request_sanitizer.py`)

Each key handler from `sanitize_anthropic_request` is embedded as a function
on the corresponding field; the whole sanitizer composes them in source order.
The input dict is copied shallowly (`sanitized = request_data.copy()`), so the
nested `thinking` dict stays shared with the caller: `sanitizeRun` returns both
the sanitized result and the state of the caller's mapping after the call.
`.error ()` models an uncaught Python exception (`AttributeError` from
`thinking.get` on a truthy non-dict, `TypeError` from ordering non-numbers). -/

open JVal

/-- Lines 21-28: drop `top_p` unless it is a number in `[0, 1]`. -/
def uniTopP : Option JVal → Option JVal
  | none => none
  | some v =>
    match toQ v with
    | none => none
    | some q => if 0 ≤ q ∧ q ≤ 1 then some v else none

/-- Lines 30-34: drop `temperature` unless it is a number. -/
def uniTemperature : Option JVal → Option JVal
  | none => none
  | some v => if isNum v then some v else none

/-- Lines 36-43: drop `top_k` unless it is a positive `int`. -/
def uniTopK : Option JVal → Option JVal
  | none => none
  | some v =>
    if isInt v then
      match toQ v with
      | some q => if q ≤ 0 then none else some v
      | none => none
    else none

/-- Lines 46-56 (and 89-99 for `stop_sequences`): drop unless a non-empty list. -/
def uniNonEmptyList : Option JVal → Option JVal
  | none => none
  | some (jarr a) => if a.isEmpty then none else some (jarr a)
  | some _ => none

/-- Lines 102-109 (and similar): drop unless a dict. -/
def uniDictOnly : Option JVal → Option JVal
  | none => none
  | some (jobj d) => some (jobj d)
  | some _ => none

/-- Lines 112-119: drop `service_tier` unless `"auto"` or `"standard_only"`. -/
def uniServiceTier : Option JVal → Option JVal
  | none => none
  | some v =>
    if pyEq v (jstr "auto") || pyEq v (jstr "standard_only") then some v else none

/-- Lines 131-142: drop `output_config` unless a dict whose `effort`, when
present, is one of `"low"`, `"medium"`, `"high"`. -/
def uniOutputConfig : Option JVal → Option JVal
  | none => none
  | some (jobj d) =>
    match d.get "effort" with
    | none => some (jobj d)
    | some e =>
      if pyEq e (jstr "low") || pyEq e (jstr "medium") || pyEq e (jstr "high") then
        some (jobj d)
      else none
  | some _ => none

/-- Python `thinking.get('type') in ('enabled', 'adaptive')` membership test. -/
def tyIn (ty : Option JVal) (s : String) : Bool :=
  match ty with
  | some v => pyEq v (jstr s)
  | none => false

/-- Outcome of the `thinking` analysis at lines 58-65. -/
inductive ThinkCase : Type where
  /-- Key absent, popped, falsy, or a dict whose type is not enabled/adaptive:
  the thinking-mode constraints do not fire; the field becomes `newTv`. -/
  | skip : Option JVal → ThinkCase
  /-- A truthy dict with type `enabled` or `adaptive`: constraints fire. -/
  | active : JObj → Bool → ThinkCase
deriving Repr, DecidableEq

/-- Lines 58-70: classify the `thinking` value and, for adaptive mode, strip
`budget_tokens` (the `del` mutates the dict shared with the caller, hence the
mutation flag).  A key absent and a `None` value both leave the sanitized dict
without the key (`pop` with default); a truthy non-dict raises
(`AttributeError` on `.get`); a falsy value is kept as-is. -/
def thinkAnalyze : Option JVal → Except Unit ThinkCase
  | none => .ok (.skip none)
  | some jnull => .ok (.skip none)
  | some (jobj d) =>
    if ¬ pyTruthy (jobj d) then .ok (.skip (some (jobj d)))
    else if tyIn (d.get "type") "enabled" ∨ tyIn (d.get "type") "adaptive" then
      if tyIn (d.get "type") "adaptive" ∧ d.hasKey "budget_tokens" then
        .ok (.active (d.del "budget_tokens") true)
      else .ok (.active d false)
    else .ok (.skip (some (jobj d)))
  | some v => if ¬ pyTruthy v then .ok (.skip (some v)) else .error ()

/-- Lines 74-76: with thinking active, force a present non-null `temperature`
that is `!= 1.0` to exactly `1.0`. -/
def thinkTemp : Option JVal → Option JVal
  | none => none
  | some t =>
    if t = jnull then some t
    else if pyEq t (jfloat 1) then some t
    else some (jfloat 1)

/-- Lines 78-81: with thinking active, clamp a present non-null `top_p` into
`[0.95, 1.0]` via `max(0.95, min(1.0, top_p))`; ordering a non-number raises. -/
def thinkTopP : Option JVal → Except Unit (Option JVal)
  | none => .ok none
  | some p =>
    if p = jnull then .ok (some p)
    else match toQ p with
      | none => .error ()
      | some q =>
        if mkRat 19 20 ≤ q ∧ q ≤ 1 then .ok (some p)
        else
          let m : JVal × ℚ := if q < 1 then (p, q) else (jfloat 1, 1)
          .ok (some (if mkRat 19 20 < m.2 then m.1 else jfloat (mkRat 19 20)))

/-- Lines 58-86: the whole `thinking` handler.  Returns the updated copy and,
when the shared nested dict was mutated, its new contents. -/
def sanThinking (r : Req) : Except Unit (Req × Option JObj) :=
  match thinkAnalyze r.thinking with
  | .error e => .error e
  | .ok (.skip ntv) => .ok ({ r with thinking := ntv }, none)
  | .ok (.active d2 mutated) =>
    match thinkTopP r.top_p with
    | .error e => .error e
    | .ok tp =>
      .ok ({ r with
          thinking := some (jobj d2)
          temperature := thinkTemp r.temperature
          top_p := tp
          top_k := none },
        if mutated then some d2 else none)

/-- `sanitize_anthropic_request` (lines 9-154), with the post-call state of the
caller's mapping as second component (the nested `thinking` dict is shared with
the shallow copy, so its in-place mutation is visible to the caller). -/
def sanitizeRun (x : Req) : Except Unit (Req × Req) :=
  let r := { x with
    top_p := uniTopP x.top_p
    temperature := uniTemperature x.temperature
    top_k := uniTopK x.top_k
    tools := uniNonEmptyList x.tools }
  match sanThinking r with
  | .error e => .error e
  | .ok (r5, mutD) =>
    let xAfter := match mutD with
      | some d2 => { x with thinking := some (jobj d2) }
      | none => x
    let y := { r5 with
      stop_sequences := uniNonEmptyList r5.stop_sequences
      metadata := uniDictOnly r5.metadata
      service_tier := uniServiceTier r5.service_tier
      tool_choice := uniDictOnly r5.tool_choice
      output_config := uniOutputConfig r5.output_config
      context_management := uniDictOnly r5.context_management }
    .ok (y, xAfter)

/-- The sanitizer's return value. -/
def sanitize_anthropic_request (x : Req) : Except Unit Req :=
  (sanitizeRun x).map Prod.fst

/-- The caller's request mapping as it stands after the sanitizer returns. -/
def sanitizeInputAfter (x : Req) : Except Unit Req :=
  (sanitizeRun x).map Prod.snd

/-! ### Sanitizer invariant

`SanitizedB` characterises the sanitizer's output; a request satisfying it is
a fixed point of the sanitizer, which yields idempotence. -/

/-- Whether a `thinking` value triggers the thinking-mode constraints. -/
def thinkingActiveB : Option JVal → Bool
  | some (jobj d) =>
    pyTruthy (jobj d) &&
      (tyIn (d.get "type") "enabled" || tyIn (d.get "type") "adaptive")
  | _ => false

def okTopP (act : Bool) : Option JVal → Bool
  | none => true
  | some v =>
    match toQ v with
    | some q => decide (0 ≤ q ∧ q ≤ 1) && (!act || decide (mkRat 19 20 ≤ q))
    | none => false

def okTemp (act : Bool) : Option JVal → Bool
  | none => true
  | some v => isNum v && (!act || pyEq v (jfloat 1))

def okTopK (act : Bool) : Option JVal → Bool
  | none => true
  | some v =>
    !act && isInt v &&
      (match toQ v with | some q => decide (0 < q) | none => false)

def okThinking : Option JVal → Bool
  | none => true
  | some v =>
    if v = jnull then false
    else if ¬ pyTruthy v then true
    else match v with
      | jobj d =>
        if tyIn (d.get "type") "enabled" ∨ tyIn (d.get "type") "adaptive" then
          !(tyIn (d.get "type") "adaptive") || !(d.hasKey "budget_tokens")
        else true
      | _ => false

/-- The sanitizer's postcondition on the returned mapping. -/
def SanitizedB (r : Req) : Bool :=
  okTopP (thinkingActiveB r.thinking) r.top_p &&
  okTemp (thinkingActiveB r.thinking) r.temperature &&
  okTopK (thinkingActiveB r.thinking) r.top_k &&
  decide (uniNonEmptyList r.tools = r.tools) &&
  okThinking r.thinking &&
  decide (uniNonEmptyList r.stop_sequences = r.stop_sequences) &&
  decide (uniDictOnly r.metadata = r.metadata) &&
  decide (uniServiceTier r.service_tier = r.service_tier) &&
  decide (uniDictOnly r.tool_choice = r.tool_choice) &&
  decide (uniOutputConfig r.output_config = r.output_config) &&
  decide (uniDictOnly r.context_management = r.context_management)

theorem JObj.get_del : ∀ (d : JObj) (k k' : String),
    (d.del k).get k' = if k' = k then none else d.get k'
  | .nil, k, k' => by simp [JObj.del, JObj.get]
  | .cons a v rest, k, k' => by
    simp only [JObj.del]
    by_cases hak : a = k
    · rw [if_pos hak, JObj.get_del rest k k']
      subst hak
      by_cases h : k' = a
      · simp [h, JObj.get]
      · rw [if_neg h, if_neg h]
        simp only [JObj.get]
        rw [if_neg (fun hh : a = k' => h hh.symm)]
    · rw [if_neg hak]
      simp only [JObj.get, JObj.get_del rest k k']
      by_cases h : a = k'
      · subst h
        simp [fun hh : a = k => hak hh]
      · simp [h]

theorem JObj.isEmpty_false_of_get {d : JObj} {k : String}
    (h : (d.get k).isSome = true) : d.isEmpty = false := by
  cases d with
  | nil => simp [JObj.get] at h
  | cons a v rest => rfl

theorem okTopP_uni (v : Option JVal) : okTopP false (uniTopP v) = true := by
  cases v with
  | none => rfl
  | some w =>
    simp only [uniTopP]
    cases h : toQ w with
    | none => rfl
    | some q =>
      by_cases hq : 0 ≤ q ∧ q ≤ 1
      · simp [hq, okTopP, h]
      · simp [hq, okTopP]

theorem okTemp_uni (v : Option JVal) : okTemp false (uniTemperature v) = true := by
  cases v with
  | none => rfl
  | some w =>
    simp only [uniTemperature]
    by_cases h : isNum w = true
    · rw [if_pos h]
      simp [okTemp, h]
    · rw [if_neg h]
      rfl

theorem okTopK_uni (v : Option JVal) : okTopK false (uniTopK v) = true := by
  cases v with
  | none => rfl
  | some w =>
    simp only [uniTopK]
    by_cases hi : isInt w = true
    · rw [if_pos hi]
      cases h : toQ w with
      | none => rfl
      | some q =>
        show okTopK false (if q ≤ 0 then none else some w) = true
        by_cases hq : q ≤ 0
        · rw [if_pos hq]; rfl
        · rw [if_neg hq]
          simp [okTopK, hi, h]
          exact lt_of_not_le hq
    · rw [if_neg hi]; rfl

theorem uniNonEmptyList_idem (v : Option JVal) :
    uniNonEmptyList (uniNonEmptyList v) = uniNonEmptyList v := by
  cases v with
  | none => rfl
  | some w =>
    cases w with
    | jarr a =>
      by_cases h : a.isEmpty = true
      · simp [uniNonEmptyList, h]
      · simp [uniNonEmptyList, h]
    | jnull => rfl
    | jbool b => rfl
    | jint n => rfl
    | jfloat q => rfl
    | jstr s => rfl
    | jobj d => rfl

theorem uniDictOnly_idem (v : Option JVal) :
    uniDictOnly (uniDictOnly v) = uniDictOnly v := by
  cases v with
  | none => rfl
  | some w => cases w <;> rfl

theorem uniServiceTier_idem (v : Option JVal) :
    uniServiceTier (uniServiceTier v) = uniServiceTier v := by
  cases v with
  | none => rfl
  | some w =>
    by_cases h : (pyEq w (jstr "auto") || pyEq w (jstr "standard_only")) = true
    · simp [uniServiceTier, h]
    · simp [uniServiceTier, h]

theorem uniTopP_fix {act : Bool} {v : Option JVal} (h : okTopP act v = true) :
    uniTopP v = v := by
  cases v with
  | none => rfl
  | some w =>
    simp only [okTopP] at h
    cases hq : toQ w with
    | none => rw [hq] at h; exact absurd h (by simp)
    | some q =>
      rw [hq] at h
      simp only [Bool.and_eq_true, decide_eq_true_eq] at h
      simp [uniTopP, hq, h.1]

theorem uniTemperature_fix {act : Bool} {v : Option JVal} (h : okTemp act v = true) :
    uniTemperature v = v := by
  cases v with
  | none => rfl
  | some w =>
    simp only [okTemp, Bool.and_eq_true] at h
    simp [uniTemperature, h.1]

theorem uniTopK_fix {act : Bool} {v : Option JVal} (h : okTopK act v = true) :
    uniTopK v = v := by
  cases v with
  | none => rfl
  | some w =>
    simp only [okTopK, Bool.and_eq_true] at h
    obtain ⟨⟨-, hi⟩, hq⟩ := h
    cases htq : toQ w with
    | none => rw [htq] at hq; exact absurd hq (by simp)
    | some q =>
      rw [htq] at hq
      simp only [decide_eq_true_eq] at hq
      simp [uniTopK, hi, htq, not_le.mpr hq]

theorem okTemp_think {v : Option JVal} (h : okTemp false v = true) :
    okTemp true (thinkTemp v) = true := by
  cases v with
  | none => rfl
  | some w =>
    simp only [okTemp, Bool.and_eq_true] at h
    have hnn : w ≠ jnull := by
      intro hw; rw [hw] at h; exact absurd h.1 (by simp [isNum, toQ])
    simp only [thinkTemp]
    rw [if_neg hnn]
    by_cases he : pyEq w (jfloat 1) = true
    · rw [if_pos he]
      simp [okTemp, h.1, he]
    · rw [if_neg he]
      simp [okTemp, isNum, toQ, pyEq]

theorem okTopP_think {v : Option JVal} (h : okTopP false v = true) :
    ∃ tp, thinkTopP v = .ok tp ∧ okTopP true tp = true := by
  cases v with
  | none => exact ⟨none, rfl, rfl⟩
  | some w =>
    simp only [okTopP] at h
    cases hq : toQ w with
    | none => rw [hq] at h; exact absurd h (by simp)
    | some q =>
      rw [hq] at h
      simp only [Bool.and_eq_true, decide_eq_true_eq] at h
      have hnn : w ≠ jnull := by
        intro hw; rw [hw] at hq; exact absurd hq (by simp [toQ])
      by_cases hr : mkRat 19 20 ≤ q ∧ q ≤ 1
      · refine ⟨some w, ?_, ?_⟩
        · simp [thinkTopP, hnn, hq, hr]
        · simp [okTopP, hq, h.1, hr.1]
      · refine ⟨some (jfloat (mkRat 19 20)), ?_, ?_⟩
        · have hlt : q < mkRat 19 20 := by
            rcases h.1 with ⟨-, hle⟩
            by_contra hge
            exact hr ⟨le_of_not_lt hge, hle⟩
          have h1 : q < 1 := lt_of_lt_of_le hlt (by decide)
          simp [thinkTopP, hnn, hq, hr, h1, lt_asymm hlt]
        · simp [okTopP, toQ]
          decide

theorem thinkTemp_fix {v : Option JVal} (h : okTemp true v = true) :
    thinkTemp v = v := by
  cases v with
  | none => rfl
  | some w =>
    simp only [okTemp, Bool.and_eq_true, Bool.or_eq_true] at h
    obtain ⟨hn, h2⟩ := h
    have he : pyEq w (jfloat 1) = true := by
      rcases h2 with h2 | h2
      · exact absurd h2 (by simp)
      · exact h2
    have hnn : w ≠ jnull := by
      intro hw; rw [hw] at hn; exact absurd hn (by simp [isNum, toQ])
    simp [thinkTemp, hnn, he]

theorem thinkTopP_fix {v : Option JVal} (h : okTopP true v = true) :
    thinkTopP v = .ok v := by
  cases v with
  | none => rfl
  | some w =>
    simp only [okTopP] at h
    cases hq : toQ w with
    | none => rw [hq] at h; exact absurd h (by simp)
    | some q =>
      rw [hq] at h
      simp only [Bool.and_eq_true, decide_eq_true_eq] at h
      have hnn : w ≠ jnull := by
        intro hw; rw [hw] at hq; exact absurd hq (by simp [toQ])
      have h95 : mkRat 19 20 ≤ q := by simpa using h.2
      simp [thinkTopP, hnn, hq, h95, h.1.2]

theorem uniOutputConfig_idem (v : Option JVal) :
    uniOutputConfig (uniOutputConfig v) = uniOutputConfig v := by
  cases v with
  | none => rfl
  | some w =>
    cases w with
    | jobj d =>
      cases hef : d.get "effort" with
      | none => simp [uniOutputConfig, hef]
      | some e =>
        by_cases he :
            (pyEq e (jstr "low") || pyEq e (jstr "medium") || pyEq e (jstr "high")) = true
        · simp [uniOutputConfig, hef, he]
        · simp [uniOutputConfig, hef, he]
    | jnull => rfl
    | jbool b => rfl
    | jint n => rfl
    | jfloat q => rfl
    | jstr s => rfl
    | jarr a => rfl

theorem thinkAnalyze_skip {tv ntv : Option JVal}
    (h : thinkAnalyze tv = .ok (.skip ntv)) :
    thinkingActiveB ntv = false ∧ okThinking ntv = true := by
  cases tv with
  | none =>
    simp only [thinkAnalyze, Except.ok.injEq, ThinkCase.skip.injEq] at h
    subst h
    exact ⟨rfl, rfl⟩
  | some v =>
    cases v with
    | jnull =>
      simp only [thinkAnalyze, Except.ok.injEq, ThinkCase.skip.injEq] at h
      subst h
      exact ⟨rfl, rfl⟩
    | jobj d =>
      simp only [thinkAnalyze] at h
      by_cases ht : pyTruthy (jobj d) = true
      · rw [if_neg (by simp [ht])] at h
        by_cases hty :
            (tyIn (d.get "type") "enabled" = true ∨ tyIn (d.get "type") "adaptive" = true)
        · rw [if_pos hty] at h
          by_cases had :
              (tyIn (d.get "type") "adaptive" = true ∧ d.hasKey "budget_tokens" = true)
          · rw [if_pos had] at h; exact absurd h (by simp)
          · rw [if_neg had] at h; exact absurd h (by simp)
        · rw [if_neg hty] at h
          simp only [Except.ok.injEq, ThinkCase.skip.injEq] at h
          subst h
          have hty' := hty
          push_neg at hty'
          constructor
          · simp only [thinkingActiveB, ht, Bool.true_and, Bool.or_eq_false_iff]
            constructor
            · simpa using hty'.1
            · simpa using hty'.2
          · simp only [okThinking]
            rw [if_neg (by simp : ¬(jobj d) = jnull), if_neg (by simp [ht]), if_neg hty]
      · have ht' : pyTruthy (jobj d) = false := by simpa using ht
        rw [if_pos (by simp [ht'])] at h
        simp only [Except.ok.injEq, ThinkCase.skip.injEq] at h
        subst h
        constructor
        · simp [thinkingActiveB, ht']
        · simp only [okThinking]
          rw [if_neg (by simp : ¬(jobj d) = jnull), if_pos (by simp [ht'])]
    | jbool b =>
      simp only [thinkAnalyze] at h
      by_cases ht : pyTruthy (jbool b) = true
      · rw [if_neg (by simp [ht])] at h; exact absurd h (by simp)
      · rw [if_pos (by simpa using ht)] at h
        simp only [Except.ok.injEq, ThinkCase.skip.injEq] at h
        subst h
        exact ⟨rfl, by simp [okThinking, ht]⟩
    | jint n =>
      simp only [thinkAnalyze] at h
      by_cases ht : pyTruthy (jint n) = true
      · rw [if_neg (by simp [ht])] at h; exact absurd h (by simp)
      · rw [if_pos (by simpa using ht)] at h
        simp only [Except.ok.injEq, ThinkCase.skip.injEq] at h
        subst h
        exact ⟨rfl, by simp [okThinking, ht]⟩
    | jfloat q =>
      simp only [thinkAnalyze] at h
      by_cases ht : pyTruthy (jfloat q) = true
      · rw [if_neg (by simp [ht])] at h; exact absurd h (by simp)
      · rw [if_pos (by simpa using ht)] at h
        simp only [Except.ok.injEq, ThinkCase.skip.injEq] at h
        subst h
        exact ⟨rfl, by simp [okThinking, ht]⟩
    | jstr s =>
      simp only [thinkAnalyze] at h
      by_cases ht : pyTruthy (jstr s) = true
      · rw [if_neg (by simp [ht])] at h; exact absurd h (by simp)
      · rw [if_pos (by simpa using ht)] at h
        simp only [Except.ok.injEq, ThinkCase.skip.injEq] at h
        subst h
        exact ⟨rfl, by simp [okThinking, ht]⟩
    | jarr a =>
      simp only [thinkAnalyze] at h
      by_cases ht : pyTruthy (jarr a) = true
      · rw [if_neg (by simp [ht])] at h; exact absurd h (by simp)
      · rw [if_pos (by simpa using ht)] at h
        simp only [Except.ok.injEq, ThinkCase.skip.injEq] at h
        subst h
        exact ⟨rfl, by simp [okThinking, ht]⟩

theorem thinkAnalyze_active {tv : Option JVal} {d2 : JObj} {m : Bool}
    (h : thinkAnalyze tv = .ok (.active d2 m)) :
    thinkingActiveB (some (jobj d2)) = true ∧ okThinking (some (jobj d2)) = true := by
  cases tv with
  | none => exact absurd h (by simp [thinkAnalyze])
  | some v =>
    cases v with
    | jnull => exact absurd h (by simp [thinkAnalyze])
    | jobj d =>
      simp only [thinkAnalyze] at h
      by_cases ht : pyTruthy (jobj d) = true
      · rw [if_neg (by simp [ht])] at h
        by_cases hty :
            (tyIn (d.get "type") "enabled" = true ∨ tyIn (d.get "type") "adaptive" = true)
        · rw [if_pos hty] at h
          have htype : (d.get "type").isSome = true := by
            rcases hty with hty | hty <;>
              · simp only [tyIn] at hty
                cases hg : d.get "type" with
                | none => rw [hg] at hty; exact absurd hty (by simp)
                | some u => simp
          by_cases had :
              (tyIn (d.get "type") "adaptive" = true ∧ d.hasKey "budget_tokens" = true)
          · rw [if_pos had] at h
            simp only [Except.ok.injEq, ThinkCase.active.injEq] at h
            obtain ⟨hd2, -⟩ := h
            subst hd2
            have hget : (d.del "budget_tokens").get "type" = d.get "type" := by
              rw [JObj.get_del]
              simp
            have htr2 : pyTruthy (jobj (d.del "budget_tokens")) = true := by
              simp only [pyTruthy]
              rw [JObj.isEmpty_false_of_get (k := "type") (by rw [hget]; exact htype)]
              rfl
            constructor
            · simp only [thinkingActiveB, hget, htr2, Bool.true_and]
              simpa using hty
            · simp only [okThinking]
              rw [if_neg (by simp : ¬(jobj (d.del "budget_tokens")) = jnull)]
              rw [if_neg (by simp [htr2])]
              rw [if_pos (by rw [hget]; exact hty)]
              have hbk : (d.del "budget_tokens").hasKey "budget_tokens" = false := by
                simp [JObj.hasKey, JObj.get_del]
              simp [hbk]
          · rw [if_neg had] at h
            simp only [Except.ok.injEq, ThinkCase.active.injEq] at h
            obtain ⟨hd2, -⟩ := h
            subst hd2
            constructor
            · simp only [thinkingActiveB, ht, Bool.true_and]
              simpa using hty
            · simp only [okThinking]
              rw [if_neg (by simp : ¬(jobj d) = jnull)]
              rw [if_neg (by simp [ht])]
              rw [if_pos hty]
              rcases Decidable.not_and_iff_or_not.mp had with hna | hnb
              · have : tyIn (d.get "type") "adaptive" = false := by simpa using hna
                simp [this]
              · have : d.hasKey "budget_tokens" = false := by simpa using hnb
                simp [this]
        · rw [if_neg hty] at h; exact absurd h (by simp)
      · rw [if_pos (by simpa using ht)] at h
        exact absurd h (by simp)
    | jbool b =>
      simp only [thinkAnalyze] at h
      by_cases ht : pyTruthy (jbool b) = true
      · rw [if_neg (by simp [ht])] at h; exact absurd h (by simp)
      · rw [if_pos (by simpa using ht)] at h; exact absurd h (by simp)
    | jint n =>
      simp only [thinkAnalyze] at h
      by_cases ht : pyTruthy (jint n) = true
      · rw [if_neg (by simp [ht])] at h; exact absurd h (by simp)
      · rw [if_pos (by simpa using ht)] at h; exact absurd h (by simp)
    | jfloat q =>
      simp only [thinkAnalyze] at h
      by_cases ht : pyTruthy (jfloat q) = true
      · rw [if_neg (by simp [ht])] at h; exact absurd h (by simp)
      · rw [if_pos (by simpa using ht)] at h; exact absurd h (by simp)
    | jstr s =>
      simp only [thinkAnalyze] at h
      by_cases ht : pyTruthy (jstr s) = true
      · rw [if_neg (by simp [ht])] at h; exact absurd h (by simp)
      · rw [if_pos (by simpa using ht)] at h; exact absurd h (by simp)
    | jarr a =>
      simp only [thinkAnalyze] at h
      by_cases ht : pyTruthy (jarr a) = true
      · rw [if_neg (by simp [ht])] at h; exact absurd h (by simp)
      · rw [if_pos (by simpa using ht)] at h; exact absurd h (by simp)

theorem sanThinking_ok {r r5 : Req} {mutD : Option JObj}
    (h : sanThinking r = .ok (r5, mutD))
    (htp : okTopP false r.top_p = true)
    (htm : okTemp false r.temperature = true)
    (htk : okTopK false r.top_k = true) :
    okTopP (thinkingActiveB r5.thinking) r5.top_p = true ∧
    okTemp (thinkingActiveB r5.thinking) r5.temperature = true ∧
    okTopK (thinkingActiveB r5.thinking) r5.top_k = true ∧
    okThinking r5.thinking = true ∧
    r5.tools = r.tools ∧ r5.stop_sequences = r.stop_sequences ∧
    r5.metadata = r.metadata ∧ r5.service_tier = r.service_tier ∧
    r5.tool_choice = r.tool_choice ∧ r5.output_config = r.output_config ∧
    r5.context_management = r.context_management := by
  unfold sanThinking at h
  cases ha : thinkAnalyze r.thinking with
  | error e => rw [ha] at h; exact absurd h (by simp)
  | ok tc =>
    rw [ha] at h
    cases tc with
    | skip ntv =>
      simp only [Except.ok.injEq, Prod.mk.injEq] at h
      obtain ⟨h5, -⟩ := h
      subst h5
      obtain ⟨hact, hokk⟩ := thinkAnalyze_skip ha
      exact ⟨by rw [hact]; exact htp, by rw [hact]; exact htm,
        by rw [hact]; exact htk, hokk,
        rfl, rfl, rfl, rfl, rfl, rfl, rfl⟩
    | active d2 m =>
      cases htpp : thinkTopP r.top_p with
      | error e => rw [htpp] at h; exact absurd h (by simp)
      | ok tp =>
        rw [htpp] at h
        simp only [Except.ok.injEq, Prod.mk.injEq] at h
        obtain ⟨h5, -⟩ := h
        subst h5
        obtain ⟨hact, hokk⟩ := thinkAnalyze_active ha
        refine ⟨?_, ?_, ?_, hokk, rfl, rfl, rfl, rfl, rfl, rfl, rfl⟩
        · show okTopP (thinkingActiveB (some (jobj d2))) tp = true
          rw [hact]
          obtain ⟨tp', heq, hoktp⟩ := okTopP_think htp
          rw [htpp] at heq
          injection heq with heq
          rw [heq]
          exact hoktp
        · show okTemp (thinkingActiveB (some (jobj d2))) (thinkTemp r.temperature) = true
          rw [hact]
          exact okTemp_think htm
        · show okTopK (thinkingActiveB (some (jobj d2))) none = true
          rw [hact]
          rfl

theorem sanitized_of_run {x y x' : Req} (h : sanitizeRun x = .ok (y, x')) :
    SanitizedB y = true := by
  simp only [sanitizeRun] at h
  cases hst : sanThinking { x with
      top_p := uniTopP x.top_p, temperature := uniTemperature x.temperature,
      top_k := uniTopK x.top_k, tools := uniNonEmptyList x.tools } with
  | error e => rw [hst] at h; exact absurd h (by simp)
  | ok p =>
    obtain ⟨r5, mutD⟩ := p
    rw [hst] at h
    simp only [Except.ok.injEq, Prod.mk.injEq] at h
    obtain ⟨hy, -⟩ := h
    subst hy
    obtain ⟨h1, h2, h3, h4, h5t, -, -, -, -, -, -⟩ :=
      sanThinking_ok hst (okTopP_uni x.top_p) (okTemp_uni x.temperature)
        (okTopK_uni x.top_k)
    simp only [SanitizedB, Bool.and_eq_true, decide_eq_true_eq]
    refine ⟨⟨⟨⟨⟨⟨⟨⟨⟨⟨?_, ?_⟩, ?_⟩, ?_⟩, ?_⟩, ?_⟩, ?_⟩, ?_⟩, ?_⟩, ?_⟩, ?_⟩
    · exact h1
    · exact h2
    · exact h3
    · show uniNonEmptyList r5.tools = r5.tools
      rw [h5t]
      exact uniNonEmptyList_idem x.tools
    · exact h4
    · exact uniNonEmptyList_idem r5.stop_sequences
    · exact uniDictOnly_idem r5.metadata
    · exact uniServiceTier_idem r5.service_tier
    · exact uniDictOnly_idem r5.tool_choice
    · exact uniOutputConfig_idem r5.output_config
    · exact uniDictOnly_idem r5.context_management

theorem thinkAnalyze_fix_inactive {tv : Option JVal} (h : okThinking tv = true)
    (ha : thinkingActiveB tv = false) : thinkAnalyze tv = .ok (.skip tv) := by
  cases tv with
  | none => rfl
  | some v =>
    cases v with
    | jnull => simp [okThinking] at h
    | jobj d =>
      by_cases ht : pyTruthy (jobj d) = true
      · have hor : (tyIn (d.get "type") "enabled" || tyIn (d.get "type") "adaptive") = false := by
          simpa [thinkingActiveB, ht] using ha
        rw [Bool.or_eq_false_iff] at hor
        simp only [thinkAnalyze]
        rw [if_neg (by simp [ht])]
        rw [if_neg (by simp [hor.1, hor.2])]
      · simp only [thinkAnalyze]
        rw [if_pos (by simpa using ht)]
    | jbool b =>
      by_cases ht : pyTruthy (jbool b) = true
      · simp [okThinking, ht] at h
      · simp only [thinkAnalyze]
        rw [if_pos (by simpa using ht)]
    | jint n =>
      by_cases ht : pyTruthy (jint n) = true
      · simp [okThinking, ht] at h
      · simp only [thinkAnalyze]
        rw [if_pos (by simpa using ht)]
    | jfloat q =>
      by_cases ht : pyTruthy (jfloat q) = true
      · simp [okThinking, ht] at h
      · simp only [thinkAnalyze]
        rw [if_pos (by simpa using ht)]
    | jstr s =>
      by_cases ht : pyTruthy (jstr s) = true
      · simp [okThinking, ht] at h
      · simp only [thinkAnalyze]
        rw [if_pos (by simpa using ht)]
    | jarr a =>
      by_cases ht : pyTruthy (jarr a) = true
      · simp [okThinking, ht] at h
      · simp only [thinkAnalyze]
        rw [if_pos (by simpa using ht)]

theorem thinkAnalyze_fix_active {tv : Option JVal} (h : okThinking tv = true)
    (ha : thinkingActiveB tv = true) :
    ∃ d, tv = some (jobj d) ∧ thinkAnalyze tv = .ok (.active d false) := by
  cases tv with
  | none => exact absurd ha (by simp [thinkingActiveB])
  | some v =>
    cases v with
    | jobj d =>
      refine ⟨d, rfl, ?_⟩
      simp only [thinkingActiveB, Bool.and_eq_true, Bool.or_eq_true] at ha
      obtain ⟨ht, hor⟩ := ha
      have hnb : (!(tyIn (d.get "type") "adaptive") || !(d.hasKey "budget_tokens")) = true := by
        have := h
        simp only [okThinking] at this
        rw [if_neg (by simp : ¬(jobj d) = jnull), if_neg (by simp [ht]),
          if_pos hor] at this
        exact this
      simp only [thinkAnalyze]
      rw [if_neg (by simp [ht]), if_pos hor]
      rw [if_neg ?hneg]
      case hneg =>
        rw [Bool.or_eq_true] at hnb
        rcases hnb with hnb | hnb
        · intro hc
          rw [Bool.not_eq_true'] at hnb
          rw [hc.1] at hnb
          exact absurd hnb (by simp)
        · intro hc
          rw [Bool.not_eq_true'] at hnb
          rw [hc.2] at hnb
          exact absurd hnb (by simp)
    | jnull => exact absurd ha (by simp [thinkingActiveB])
    | jbool b => exact absurd ha (by simp [thinkingActiveB])
    | jint n => exact absurd ha (by simp [thinkingActiveB])
    | jfloat q => exact absurd ha (by simp [thinkingActiveB])
    | jstr s => exact absurd ha (by simp [thinkingActiveB])
    | jarr a => exact absurd ha (by simp [thinkingActiveB])

theorem sanThinking_fix {r : Req}
    (hth : okThinking r.thinking = true)
    (htp : okTopP (thinkingActiveB r.thinking) r.top_p = true)
    (htm : okTemp (thinkingActiveB r.thinking) r.temperature = true)
    (htk : okTopK (thinkingActiveB r.thinking) r.top_k = true) :
    sanThinking r = .ok (r, none) := by
  by_cases ha : thinkingActiveB r.thinking = true
  · rw [ha] at htp htm htk
    obtain ⟨d, hv, han⟩ := thinkAnalyze_fix_active hth ha
    have hk : r.top_k = none := by
      cases hkk : r.top_k with
      | none => rfl
      | some w => rw [hkk] at htk; exact absurd htk (by simp [okTopK])
    unfold sanThinking
    rw [han, thinkTopP_fix htp]
    show Except.ok (({ r with
        thinking := some (jobj d), temperature := thinkTemp r.temperature,
        top_p := r.top_p, top_k := none } : Req),
      (none : Option JObj)) = Except.ok (r, none)
    rw [thinkTemp_fix htm, ← hv, ← hk]
  · have ha' : thinkingActiveB r.thinking = false := by simpa using ha
    have han := thinkAnalyze_fix_inactive hth ha'
    unfold sanThinking
    rw [han]

theorem run_fix {y : Req} (h : SanitizedB y = true) : sanitizeRun y = .ok (y, y) := by
  simp only [SanitizedB, Bool.and_eq_true, decide_eq_true_eq] at h
  obtain ⟨⟨⟨⟨⟨⟨⟨⟨⟨⟨h1, h2⟩, h3⟩, h4⟩, h5⟩, h6⟩, h7⟩, h8⟩, h9⟩, h10⟩, h11⟩ := h
  have hrec : ({ y with
      top_p := uniTopP y.top_p, temperature := uniTemperature y.temperature,
      top_k := uniTopK y.top_k, tools := uniNonEmptyList y.tools } : Req) = y := by
    rw [uniTopP_fix h1, uniTemperature_fix h2, uniTopK_fix h3, h4]
  simp only [sanitizeRun]
  rw [hrec, sanThinking_fix h5 h1 h2 h3]
  show Except.ok (({ y with
      stop_sequences := uniNonEmptyList y.stop_sequences,
      metadata := uniDictOnly y.metadata,
      service_tier := uniServiceTier y.service_tier,
      tool_choice := uniDictOnly y.tool_choice,
      output_config := uniOutputConfig y.output_config,
      context_management := uniDictOnly y.context_management } : Req), y) =
    Except.ok (y, y)
  rw [h6, h7, h8, h9, h10, h11]

/-- Idempotence: a successfully sanitized request is a fixed point. -/
theorem sanitize_fixed {x y x' : Req} (h : sanitizeRun x = .ok (y, x')) :
    sanitizeRun y = .ok (y, y) :=
  run_fix (sanitized_of_run h)

/-! ## Capability header composer (`src/anthropic/beta_headers.py`) and
tool feature detection (`src/openai_compat/tool_converter.py`) -/

/-- `CORE_BETAS` (beta_headers.py lines 9-12). -/
def CORE_BETAS : List String := ["oauth-2025-04-20", "claude-code-20250219"]

/-- `ADVANCED_TOOL_TYPES` (beta_headers.py lines 15-19): note this list does
NOT include the memory tool type. -/
def ADVANCED_TOOL_TYPES : List String :=
  ["code_execution_20250825", "tool_search_tool_regex_20251119",
   "tool_search_tool_bm25_20251119"]

/-- `ADVANCED_TOOL_PROPERTIES` (both modules, identical contents). -/
def ADVANCED_TOOL_PROPERTIES : List String :=
  ["allowed_callers", "defer_loading", "input_examples"]

/-- `MEMORY_TOOL_TYPE` (beta_headers.py line 25). -/
def MEMORY_TOOL_TYPE : String := "memory_20250818"

/-- `SPECIAL_TOOL_TYPES` (tool_converter.py lines 12-17): the three advanced
types plus the memory type. -/
def SPECIAL_TOOL_TYPES : List String :=
  ["code_execution_20250825", "tool_search_tool_regex_20251119",
   "tool_search_tool_bm25_20251119", "memory_20250818"]

/-- Python `tv in (list of strings)` where `tv` came from `d.get(key)`
(`None` is never equal to a string). -/
def typeMem (tv : Option JVal) (l : List String) : Bool :=
  match tv with
  | some v => l.any (fun s => pyEq v (jstr s))
  | none => false

/-- Python `key in v` for a non-dict container: substring test on strings,
membership on lists, `TypeError` otherwise. -/
def pyInVal (key : String) (v : JVal) : Except Unit Bool :=
  match v with
  | jobj d => .ok (d.hasKey key)
  | jstr s => .ok (infixList key.toList s.toList)
  | jarr a => .ok (a.toList.any (fun w => pyEq w (jstr key)))
  | _ => .error ()

/-- `_has_advanced_tool_features` (beta_headers.py lines 28-37): checks only
the three `ADVANCED_TOOL_TYPES` and the advanced properties on the tool dict
itself — the nested `function` definition is NOT consulted.  `.error` models
the `AttributeError` from `tool.get` on a non-dict element. -/
def hasAdvBetaLoop : List JVal → Except Unit Bool
  | [] => .ok false
  | jobj d :: rest =>
    if typeMem (d.get "type") ADVANCED_TOOL_TYPES then .ok true
    else if ADVANCED_TOOL_PROPERTIES.any d.hasKey then .ok true
    else hasAdvBetaLoop rest
  | _ :: _ => .error ()

/-- `_has_memory_tool` (beta_headers.py lines 40-45). -/
def hasMemoryLoop : List JVal → Except Unit Bool
  | [] => .ok false
  | jobj d :: rest =>
    if typeMem (d.get "type") [MEMORY_TOOL_TYPE] then .ok true
    else hasMemoryLoop rest
  | _ :: _ => .error ()

/-- `has_advanced_tool_features` (tool_converter.py lines 174-203): checks the
full `SPECIAL_TOOL_TYPES` (memory included) and the advanced properties on
both the tool and its nested `function` definition. -/
def hatfLoop : List JVal → Except Unit Bool
  | [] => .ok false
  | jobj d :: rest =>
    if typeMem (d.get "type") SPECIAL_TOOL_TYPES then .ok true
    else if ADVANCED_TOOL_PROPERTIES.any d.hasKey then .ok true
    else
      match pyInValAny (d.getD "function" (jobj .nil)) with
      | .error e => .error e
      | .ok true => .ok true
      | .ok false => hatfLoop rest
  | _ :: _ => .error ()
where
  /-- `for prop in ADVANCED_TOOL_PROPERTIES: if prop in function` -/
  pyInValAny (v : JVal) : Except Unit Bool :=
    match pyInVal "allowed_callers" v with
    | .error e => .error e
    | .ok true => .ok true
    | .ok false =>
      match pyInVal "defer_loading" v with
      | .error e => .error e
      | .ok true => .ok true
      | .ok false => pyInVal "input_examples" v

/-- `has_advanced_tool_features` on a tool list (`if not tools: return False`). -/
def has_advanced_tool_features (tools : List JVal) : Except Unit Bool :=
  match tools with
  | [] => .ok false
  | _ => hatfLoop tools

/-- Truthiness of an optional request value (`request.get(k)` then `if v`). -/
def optTruthy : Option JVal → Bool
  | none => false
  | some v => pyTruthy v

/-- Truthiness of an optional string argument (`None` and `""` are falsy). -/
def strTruthy : Option String → Bool
  | none => false
  | some s => s ≠ ""

/-- `tools and _has_advanced_tool_features(tools)` (lines 91-92); iterating a
truthy non-list raises in `_has_advanced_tool_features`. -/
def toolsAdvFlag (req : Req) : Except Unit Bool :=
  match req.tools with
  | none => .ok false
  | some v =>
    if ¬ pyTruthy v then .ok false
    else match v with
      | jarr a => hasAdvBetaLoop a.toList
      | _ => .error ()

/-- `tools and _has_memory_tool(tools)` (line 105). -/
def toolsMemFlag (req : Req) : Except Unit Bool :=
  match req.tools with
  | none => .ok false
  | some v =>
    if ¬ pyTruthy v then .ok false
    else match v with
      | jarr a => hasMemoryLoop a.toList
      | _ => .error ()

/-- `thinking and thinking.get("type") == "enabled"` (lines 83-84). -/
def thinkingEnabledFlag (req : Req) : Except Unit Bool :=
  match req.thinking with
  | none => .ok false
  | some v =>
    if ¬ pyTruthy v then .ok false
    else match v with
      | jobj d => .ok (tyIn (d.get "type") "enabled")
      | _ => .error ()

/-- `output_config and output_config.get("effort")` (lines 98-99). -/
def effortFlag (req : Req) : Except Unit Bool :=
  match req.output_config with
  | none => .ok false
  | some v =>
    if ¬ pyTruthy v then .ok false
    else match v with
      | jobj d => .ok (pyTruthy (d.getD "effort" jnull))
      | _ => .error ()

/-- `anthropic_request.get("context_management") is not None` (line 106). -/
def cmPresentB (req : Req) : Bool :=
  match req.context_management with
  | some v => v ≠ jnull
  | none => false

/-- `anthropic_request.get("_use_1m_context", False)` truthiness (line 77). -/
def ctx1mFlagB (req : Req) : Bool := optTruthy req.ctx1m

/-- The engine-required token list as a function of the six feature flags, in
the source's fixed append order (lines 70-110). -/
def requiredFrom (hasTools c1m think adv eff cm : Bool) : List String :=
  CORE_BETAS ++
  (if hasTools then ["fine-grained-tool-streaming-2025-05-14"] else []) ++
  (if c1m then ["context-1m-2025-08-07"] else []) ++
  (if think then ["interleaved-thinking-2025-05-14"] else []) ++
  (if adv then ["advanced-tool-use-2025-11-20"] else []) ++
  (if eff then ["effort-2025-11-24"] else []) ++
  (if cm then ["context-management-2025-06-27"] else [])

/-- The engine-required token list for a request (`required_betas` just before
the client merge at line 112). -/
def requiredBetaList (req : Req) (rl : Option String) (use1m : Bool) :
    Except Unit (List String) :=
  match toolsAdvFlag req with
  | .error e => .error e
  | .ok adv =>
    match thinkingEnabledFlag req with
    | .error e => .error e
    | .ok te =>
      match effortFlag req with
      | .error e => .error e
      | .ok eff =>
        match toolsMemFlag req with
        | .error e => .error e
        | .ok mem =>
          .ok (requiredFrom (optTruthy req.tools) (use1m || ctx1mFlagB req)
            (te || strTruthy rl) adv eff (mem || cmPresentB req))

/-- `[beta.strip() for beta in client_beta_headers.split(",")]` (line 117). -/
def splitClient (s : String) : List String :=
  (splitCharsOn ',' s.toList).map (fun cs => pyStrip (String.mk cs))

/-- `dict.fromkeys` on a list: order-preserving de-duplication, first
occurrence wins.  The accumulator holds the keys already seen. -/
def dedupAcc (seen : List String) : List String → List String
  | [] => []
  | t :: rest =>
    if t ∈ seen then dedupAcc seen rest else t :: dedupAcc (t :: seen) rest

/-- `list(dict.fromkeys(l))` (line 119). -/
def pyFromKeys (l : List String) : List String := dedupAcc [] l

/-- Lines 112-119: merge the client tokens (skipped entirely for a falsy
header value). -/
def mergeClient (required : List String) (client : Option String) : List String :=
  match client with
  | none => required
  | some s => if s = "" then required else pyFromKeys (required ++ splitClient s)

/-- The composed token sequence of `build_beta_headers`. -/
def buildBetaList (req : Req) (client : Option String) (rl : Option String)
    (use1m : Bool) : Except Unit (List String) :=
  match requiredBetaList req rl use1m with
  | .error e => .error e
  | .ok l => .ok (mergeClient l client)

/-- `build_beta_headers` (lines 48-126): the comma-joined header value. -/
def build_beta_headers (req : Req) (client : Option String) (rl : Option String)
    (use1m : Bool) : Except Unit String :=
  match buildBetaList req client rl use1m with
  | .error e => .error e
  | .ok l => .ok (String.intercalate "," l)

theorem dedupAcc_spec : ∀ (B seen : List String),
    (dedupAcc seen B).Nodup ∧ ∀ x ∈ dedupAcc seen B, x ∉ seen
  | [], seen => ⟨List.nodup_nil, by simp [dedupAcc]⟩
  | t :: rest, seen => by
    simp only [dedupAcc]
    by_cases h : t ∈ seen
    · rw [if_pos h]
      exact dedupAcc_spec rest seen
    · rw [if_neg h]
      obtain ⟨hnd, hnotin⟩ := dedupAcc_spec rest (t :: seen)
      refine ⟨List.nodup_cons.mpr ⟨?_, hnd⟩, ?_⟩
      · intro hc
        exact hnotin t hc (List.mem_cons_self t seen)
      · intro x hx
        rcases List.mem_cons.mp hx with rfl | hx'
        · exact h
        · intro hs
          exact hnotin x hx' (List.mem_cons_of_mem _ hs)

theorem dedupAcc_perm : ∀ (B : List String) {s1 s2 : List String},
    (∀ x, x ∈ s1 ↔ x ∈ s2) → dedupAcc s1 B = dedupAcc s2 B
  | [], _, _, _ => rfl
  | t :: rest, s1, s2, h => by
    simp only [dedupAcc]
    by_cases ht : t ∈ s1
    · rw [if_pos ht, if_pos ((h t).mp ht)]
      exact dedupAcc_perm rest h
    · rw [if_neg ht, if_neg (fun hc => ht ((h t).mpr hc))]
      congr 1
      refine dedupAcc_perm rest (fun x => ?_)
      simp only [List.mem_cons]
      exact or_congr Iff.rfl (h x)

theorem dedupAcc_append : ∀ (A seen B : List String),
    A.Nodup → (∀ a ∈ A, a ∉ seen) →
    dedupAcc seen (A ++ B) = A ++ dedupAcc (A.reverse ++ seen) B
  | [], seen, B, _, _ => by simp
  | a :: A', seen, B, hnd, hdisj => by
    have hd2 : ∀ x ∈ A', x ∉ a :: seen := by
      intro x hx
      simp only [List.mem_cons]
      push_neg
      refine ⟨?_, hdisj x (List.mem_cons_of_mem _ hx)⟩
      intro hc
      subst hc
      exact absurd hx (List.nodup_cons.mp hnd).1
    have ih := dedupAcc_append A' (a :: seen) B (List.nodup_cons.mp hnd).2 hd2
    have hperm : dedupAcc (A'.reverse ++ (a :: seen)) B =
        dedupAcc ((a :: A').reverse ++ seen) B := by
      refine dedupAcc_perm B (fun x => ?_)
      simp only [List.reverse_cons, List.mem_append, List.mem_reverse,
        List.mem_cons, List.mem_singleton]
      tauto
    show dedupAcc seen (a :: (A' ++ B)) =
      (a :: A') ++ dedupAcc ((a :: A').reverse ++ seen) B
    simp only [dedupAcc]
    rw [if_neg (hdisj a (List.mem_cons_self a A')), ih, hperm]
    rfl

theorem pyFromKeys_decomp (A B : List String) (h : A.Nodup) :
    pyFromKeys (A ++ B) = A ++ dedupAcc A B := by
  unfold pyFromKeys
  rw [dedupAcc_append A [] B h (by simp)]
  congr 1
  refine dedupAcc_perm B (fun x => ?_)
  simp

theorem pyFromKeys_nodup (l : List String) : (pyFromKeys l).Nodup :=
  (dedupAcc_spec l []).1

theorem requiredFrom_nodup :
    ∀ b1 b2 b3 b4 b5 b6 : Bool, (requiredFrom b1 b2 b3 b4 b5 b6).Nodup := by
  decide

theorem requiredBetaList_shape {req : Req} {rl : Option String} {use1m : Bool}
    {l : List String} (h : requiredBetaList req rl use1m = .ok l) :
    ∃ adv te eff mem, toolsAdvFlag req = .ok adv ∧
      thinkingEnabledFlag req = .ok te ∧ effortFlag req = .ok eff ∧
      toolsMemFlag req = .ok mem ∧
      l = requiredFrom (optTruthy req.tools) (use1m || ctx1mFlagB req)
        (te || strTruthy rl) adv eff (mem || cmPresentB req) := by
  unfold requiredBetaList at h
  cases h1 : toolsAdvFlag req with
  | error e => rw [h1] at h; exact absurd h (by simp)
  | ok adv =>
    rw [h1] at h
    cases h2 : thinkingEnabledFlag req with
    | error e => rw [h2] at h; exact absurd h (by simp)
    | ok te =>
      rw [h2] at h
      cases h3 : effortFlag req with
      | error e => rw [h3] at h; exact absurd h (by simp)
      | ok eff =>
        rw [h3] at h
        cases h4 : toolsMemFlag req with
        | error e => rw [h4] at h; exact absurd h (by simp)
        | ok mem =>
          rw [h4] at h
          simp only [Except.ok.injEq] at h
          refine ⟨adv, te, eff, mem, ?_, ?_, ?_, ?_, h.symm⟩ <;>
            first
            | exact h1
            | exact h2
            | exact h3
            | exact h4
            | rfl

theorem requiredBetaList_nodup {req : Req} {rl : Option String} {use1m : Bool}
    {l : List String} (h : requiredBetaList req rl use1m = .ok l) : l.Nodup := by
  obtain ⟨adv, te, eff, mem, -, -, -, -, hl⟩ := requiredBetaList_shape h
  rw [hl]
  exact requiredFrom_nodup _ _ _ _ _ _

/-! ## Tool-call conversion (`src/openai_compat/tool_converter.py`) -/

/-- `json.loads` applied to an arbitrary Python value: a non-string argument
raises `TypeError` (outer `.error`, never caught by the converters); on a
string the inner `Option` is the parse result (`none` = `JSONDecodeError`). -/
def json_loads_py : JVal → Except Unit (Option JVal)
  | jstr s => .ok (json_loads s)
  | _ => .error ()

/-- Lines 30-57: convert one OpenAI tool call to an Anthropic `tool_use`
block.  The `try/except json.JSONDecodeError` makes a failed parse degrade to
the empty object; a `TypeError` (non-string arguments) or `AttributeError`
(non-dict `function` value) still propagates. -/
def convertToolCall (tc : JObj) : Except Unit JVal :=
  match tc.getD "function" (jobj .nil) with
  | jobj f =>
    match json_loads_py (f.getD "arguments" (jstr "\x7b\x7d")) with
    | .error e => .error e
    | .ok parsed =>
      .ok (jobj (JObj.ofList [("type", jstr "tool_use"),
        ("id", tc.getD "id" (jstr "")),
        ("name", f.getD "name" (jstr "")),
        ("input", parsed.getD (jobj .nil))]))
  | _ => .error ()

/-- `convert_openai_tool_calls_to_anthropic` (lines 23-60). -/
def convert_openai_tool_calls_to_anthropic : List JObj → Except Unit (List JVal)
  | [] => .ok []
  | tc :: rest =>
    match convertToolCall tc with
    | .error e => .error e
    | .ok b =>
      match convert_openai_tool_calls_to_anthropic rest with
      | .error e => .error e
      | .ok bs => .ok (b :: bs)

/-- `convert_openai_function_call_to_anthropic` (lines 63-70): the legacy
singular path calls `json.loads` with NO `try/except`, so an invalid argument
string raises (`.error`).  The model covers string-valued `name`s (the wire
schema's case). -/
def convert_openai_function_call_to_anthropic (fc : JObj) : Except Unit (List JVal) :=
  match fc.getD "name" (jstr "") with
  | jstr n =>
    match json_loads_py (fc.getD "arguments" (jstr "\x7b\x7d")) with
    | .error e => .error e
    | .ok none => .error ()
    | .ok (some v) =>
      .ok [jobj (JObj.ofList [("type", jstr "tool_use"),
        ("id", jstr (String.append "func_" n)),
        ("name", jstr n), ("input", v)])]
  | _ => .error ()

/-! ## Unary response conversion (`src/openai_compat/response_converter.py`) -/

/-- `map_stop_reason_to_finish_reason` (lines 15-26). -/
def map_stop_reason_to_finish_reason (stop_reason : Option String) : String :=
  match stop_reason with
  | some "end_turn" => "stop"
  | some "max_tokens" => "length"
  | some "stop_sequence" => "stop"
  | some "tool_use" => "tool_calls"
  | some "pause_turn" => "stop"
  | some "refusal" => "content_filter"
  | some "model_context_window_exceeded" => "length"
  | _ => "stop"

/-- Line 53: `tb.get("thinking") and isinstance(sig, str) and sig.strip()` —
a cache-eligible ("signed") thinking block. -/
def signedPred (tb : JObj) : Bool :=
  pyTruthy (tb.getD "thinking" jnull) &&
    (match tb.get "signature" with
     | some (jstr s) => pyStrip s ≠ ""
     | _ => false)

/-- Line 54: the dict stored into the cache, rebuilt from the found block
(`thinking` and `signature` carried over unaltered). -/
def signedOf (tb : JObj) : JVal :=
  jobj (JObj.ofList [("type", jstr "thinking"),
    ("thinking", tb.getD "thinking" jnull),
    ("signature", tb.getD "signature" jnull)])

/-- Line 58: `[tc["id"] for tc in tool_calls if tc.get("id")]`. -/
def toolIds (tcs : List JObj) : List JVal :=
  (tcs.filter (fun tc => pyTruthy (tc.getD "id" jnull))).map
    (fun tc => tc.getD "id" jnull)

/-- Lines 47-63 of `convert_anthropic_response_to_openai`: the ordered
`(tool-use id, signed thinking block)` pairs the converter stores into
`THINKING_CACHE` for one response. -/
def cachePuts (thinking_blocks tool_calls : List JObj) : List (JVal × JVal) :=
  if thinking_blocks ≠ [] ∧ tool_calls ≠ [] then
    match thinking_blocks.find? signedPred with
    | some tb => (toolIds tool_calls).map (fun tid => (tid, signedOf tb))
    | none => []
  else []

/-! ## Request preparation (`src/proxy/handlers/request_handler.py` lines
64-81, and `src/proxy/endpoints/anthropic_messages.py` lines 90-102) -/

/-- `thinking_budget + min_response_tokens` (`int`/`float`/`bool` addition). -/
def addTok (v : JVal) (n : Int) : JVal :=
  match v with
  | jint a => jint (a + n)
  | jbool b => jint ((if b then 1 else 0) + n)
  | jfloat q => jfloat (q + (n : ℚ))
  | _ => v

/-- Lines 64-81 of `prepare_anthropic_request`: with thinking enabled or
adaptive and a truthy `budget_tokens`, raise `max_tokens` to
`budget + 1024` when it is below that; then re-inject stored thinking blocks
into the messages (`injthink` abstracts `proxy.thinking_storage.
inject_thinking_blocks`, whose source is outside `src/`; it only rewrites the
message list).  `.error` models `AttributeError` on a truthy non-dict
`thinking`, `TypeError` on a non-numeric budget, and `KeyError`/`TypeError`
on a missing or non-numeric `max_tokens`. -/
def adjustMaxTokens (injthink : Option JVal → Option JVal) (r : Req) :
    Except Unit Req :=
  match r.thinking with
  | none => .ok r
  | some jnull => .ok r
  | some (jobj d) =>
    if pyTruthy (jobj d) ∧
        (tyIn (d.get "type") "enabled" ∨ tyIn (d.get "type") "adaptive") then
      match d.get "budget_tokens" with
      | some bv =>
        if pyTruthy bv then
          match toQ (addTok bv 1024) with
          | some rq =>
            match r.max_tokens with
            | some mv =>
              match toQ mv with
              | some mq =>
                if mq < rq then
                  .ok { r with
                    max_tokens := some (addTok bv 1024)
                    messages := injthink r.messages }
                else .ok { r with messages := injthink r.messages }
              | none => .error ()
            | none => .error ()
          | none => .error ()
        else .ok { r with messages := injthink r.messages }
      | none => .ok { r with messages := injthink r.messages }
    else .ok r
  | some v => if pyTruthy v then .error () else .ok r

/-- `prepare_anthropic_request` for a native request (lines 36-92): the
max-tokens adjustment, then the sanitizer, then the system-message injection
and prompt-caching annotation.  `injectCC` and `addCache` abstract
`inject_claude_code_system_message` and `add_prompt_caching` (outside `src/`;
per the spec they only touch the system prompt and the message content
blocks). -/
def prepare_anthropic_request (injthink : Option JVal → Option JVal)
    (injectCC addCache : Req → Req) (r : Req) : Except Unit Req :=
  match adjustMaxTokens injthink r with
  | .error e => .error e
  | .ok r1 =>
    match sanitize_anthropic_request r1 with
    | .error e => .error e
    | .ok r2 => .ok (addCache (injectCC r2))

/-! ## Streaming usage side channel
(`src/proxy/handlers/streaming_handler.py` lines 71-124, and the identical
extraction in `src/proxy/endpoints/anthropic_messages.py` lines 180-223) -/

/-- The running `stream_usage` dict (lines 72-77). -/
structure StreamUsage : Type where
  input_tokens : JVal
  output_tokens : JVal
  cache_read_input_tokens : JVal
  cache_creation_input_tokens : JVal
deriving Repr, DecidableEq

/-- Lines 72-77: all four counters start at `0`. -/
def initUsage : StreamUsage := ⟨jint 0, jint 0, jint 0, jint 0⟩

/-- Lines 94-103: update the tracked usage from one parsed `data:` payload.
`.error` models the `AttributeError` a non-dict raises on `.get` (the `try`
only catches JSON/Unicode decode errors). -/
def updateUsage (u : StreamUsage) (data : JVal) : Except Unit StreamUsage :=
  match data with
  | jobj d =>
    if tyIn (d.get "type") "message_start" then
      match d.getD "message" (jobj .nil) with
      | jobj msg =>
        match msg.getD "usage" (jobj .nil) with
        | jobj us =>
          .ok { u with
            input_tokens := us.getD "input_tokens" (jint 0)
            cache_read_input_tokens := us.getD "cache_read_input_tokens" (jint 0)
            cache_creation_input_tokens := us.getD "cache_creation_input_tokens" (jint 0) }
        | _ => .error ()
      | _ => .error ()
    else if tyIn (d.get "type") "message_delta" then
      match d.getD "usage" (jobj .nil) with
      | jobj us =>
        if pyTruthy (us.getD "output_tokens" jnull) then
          .ok { u with output_tokens := us.getD "output_tokens" (jint 0) }
        else .ok u
      | _ => .error ()
    else .ok u
  | _ => .error ()

/-- `line.startswith('data: ')` combined with `line[6:]`. -/
def dataPrefixP : List Char → Option (List Char)
  | 'd' :: 'a' :: 't' :: 'a' :: ':' :: ' ' :: rest => some rest
  | _ => none

/-- Lines 91-103: walk the SSE lines of one chunk; a `data:` line that fails
to parse aborts the rest of the chunk (the `except` wraps the whole loop) but
is swallowed. -/
def processLines (u : StreamUsage) : List (List Char) → Except Unit StreamUsage
  | [] => .ok u
  | l :: rest =>
    match dataPrefixP l with
    | some payload =>
      match json_loads (String.mk payload) with
      | none => .ok u
      | some data =>
        match updateUsage u data with
        | .error e => .error e
        | .ok u2 => processLines u2 rest
    | none => processLines u rest

/-- Lines 89-106: the per-chunk side-channel extraction, guarded by the
`b'"usage"' in chunk` pre-filter. -/
def processChunk (u : StreamUsage) (chunk : String) : Except Unit StreamUsage :=
  if chunk ≠ "" ∧ infixList "\"usage\"".toList chunk.toList = true then
    processLines u (splitCharsOn '\n' chunk.toList)
  else .ok u

/-- The `tracked_anthropic_stream` wrapper (lines 79-106): yields every chunk
unchanged while folding the usage extraction over it. -/
def runTracked : StreamUsage → List String → Except Unit (List String × StreamUsage)
  | u, [] => .ok ([], u)
  | u, c :: cs =>
    match processChunk u c with
    | .error e => .error e
    | .ok u2 =>
      match runTracked u2 cs with
      | .error e => .error e
      | .ok (outs, uf) => .ok (c :: outs, uf)

/-- `stream_usage["..."] > 0` (line 120 / line 214). -/
def gtZeroTok (v : JVal) : Except Unit Bool :=
  match toQ v with
  | some q => .ok (decide (0 < q))
  | none => .error ()

/-- Line 120 (and line 214): the condition under which the usage callback /
recorder is invoked after the stream completes, with Python's short-circuit
`or`. -/
def usageCallbackFires (u : StreamUsage) : Except Unit Bool :=
  match gtZeroTok u.input_tokens with
  | .error e => .error e
  | .ok true => .ok true
  | .ok false => gtZeroTok u.output_tokens

theorem sanThinking_max_tokens {r r5 : Req} {mutD : Option JObj}
    (h : sanThinking r = .ok (r5, mutD)) : r5.max_tokens = r.max_tokens := by
  unfold sanThinking at h
  cases ha : thinkAnalyze r.thinking with
  | error e => rw [ha] at h; exact absurd h (by simp)
  | ok tc =>
    rw [ha] at h
    cases tc with
    | skip ntv =>
      simp only [Except.ok.injEq, Prod.mk.injEq] at h
      obtain ⟨h5, -⟩ := h
      subst h5
      rfl
    | active d2 m =>
      cases htpp : thinkTopP r.top_p with
      | error e => rw [htpp] at h; exact absurd h (by simp)
      | ok tp =>
        rw [htpp] at h
        simp only [Except.ok.injEq, Prod.mk.injEq] at h
        obtain ⟨h5, -⟩ := h
        subst h5
        rfl

theorem sanitizeRun_max_tokens {x y x' : Req} (h : sanitizeRun x = .ok (y, x')) :
    y.max_tokens = x.max_tokens := by
  simp only [sanitizeRun] at h
  cases hst : sanThinking { x with
      top_p := uniTopP x.top_p, temperature := uniTemperature x.temperature,
      top_k := uniTopK x.top_k, tools := uniNonEmptyList x.tools } with
  | error e => rw [hst] at h; exact absurd h (by simp)
  | ok p =>
    obtain ⟨r5, mutD⟩ := p
    rw [hst] at h
    simp only [Except.ok.injEq, Prod.mk.injEq] at h
    obtain ⟨hy, -⟩ := h
    subst hy
    show r5.max_tokens = x.max_tokens
    exact sanThinking_max_tokens (r := { x with
      top_p := uniTopP x.top_p, temperature := uniTemperature x.temperature,
      top_k := uniTopK x.top_k, tools := uniNonEmptyList x.tools }) hst

/-- `tyIn` on a key requires the key to be present. -/
theorem tyIn_isSome {d : JObj} {k s : String} (h : tyIn (d.get k) s = true) :
    (d.get k).isSome = true := by
  cases hg : d.get k with
  | none => rw [hg] at h; exact absurd h (by simp [tyIn])
  | some v => simp

theorem truthy_of_tyIn {d : JObj} {k s : String} (h : tyIn (d.get k) s = true) :
    pyTruthy (jobj d) = true := by
  simp only [pyTruthy]
  rw [JObj.isEmpty_false_of_get (tyIn_isSome h)]
  rfl

/-- Full characterization of the sanitizer on a request whose `thinking` value
is a dict in enabled or adaptive mode. -/
theorem sanitizeRun_active {x : Req} {d : JObj}
    (hth : x.thinking = some (jobj d))
    (hty : tyIn (d.get "type") "enabled" = true ∨
      tyIn (d.get "type") "adaptive" = true) :
    ∃ tp, thinkTopP (uniTopP x.top_p) = .ok tp ∧ okTopP true tp = true ∧
    sanitizeRun x = .ok ({ x with
        top_p := tp
        temperature := thinkTemp (uniTemperature x.temperature)
        top_k := none
        tools := uniNonEmptyList x.tools
        thinking := some (jobj
          (if tyIn (d.get "type") "adaptive" = true ∧ d.hasKey "budget_tokens" = true
           then d.del "budget_tokens" else d))
        stop_sequences := uniNonEmptyList x.stop_sequences
        metadata := uniDictOnly x.metadata
        service_tier := uniServiceTier x.service_tier
        tool_choice := uniDictOnly x.tool_choice
        output_config := uniOutputConfig x.output_config
        context_management := uniDictOnly x.context_management },
      if tyIn (d.get "type") "adaptive" = true ∧ d.hasKey "budget_tokens" = true
      then { x with thinking := some (jobj (d.del "budget_tokens")) } else x) := by
  obtain ⟨tp, htp, hoktp⟩ := okTopP_think (okTopP_uni x.top_p)
  refine ⟨tp, htp, hoktp, ?_⟩
  have htr : pyTruthy (jobj d) = true := by
    rcases hty with h | h
    · exact truthy_of_tyIn h
    · exact truthy_of_tyIn h
  have hana : thinkAnalyze x.thinking =
      .ok (if tyIn (d.get "type") "adaptive" = true ∧ d.hasKey "budget_tokens" = true
        then ThinkCase.active (d.del "budget_tokens") true
        else ThinkCase.active d false) := by
    rw [hth]
    simp only [thinkAnalyze]
    rw [if_neg (by simp [htr]), if_pos hty]
    by_cases had :
        (tyIn (d.get "type") "adaptive" = true ∧ d.hasKey "budget_tokens" = true)
    · rw [if_pos had, if_pos had]
    · rw [if_neg had, if_neg had]
  have hsan : sanThinking { x with
      top_p := uniTopP x.top_p, temperature := uniTemperature x.temperature,
      top_k := uniTopK x.top_k, tools := uniNonEmptyList x.tools } =
      .ok ({ x with
        top_p := tp
        temperature := thinkTemp (uniTemperature x.temperature)
        top_k := none
        tools := uniNonEmptyList x.tools
        thinking := some (jobj
          (if tyIn (d.get "type") "adaptive" = true ∧ d.hasKey "budget_tokens" = true
           then d.del "budget_tokens" else d)) },
      if tyIn (d.get "type") "adaptive" = true ∧ d.hasKey "budget_tokens" = true
      then some (d.del "budget_tokens") else none) := by
    unfold sanThinking
    have hana' : thinkAnalyze (Req.thinking { x with
        top_p := uniTopP x.top_p, temperature := uniTemperature x.temperature,
        top_k := uniTopK x.top_k, tools := uniNonEmptyList x.tools }) =
        .ok (if tyIn (d.get "type") "adaptive" = true ∧ d.hasKey "budget_tokens" = true
          then ThinkCase.active (d.del "budget_tokens") true
          else ThinkCase.active d false) := hana
    by_cases had :
        (tyIn (d.get "type") "adaptive" = true ∧ d.hasKey "budget_tokens" = true)
    · have hana2 := hana'.trans (by rw [if_pos had])
      rw [hana2]
      simp only [htp]
      rw [if_pos had, if_pos had]
      simp
    · have hana2 := hana'.trans (by rw [if_neg had])
      rw [hana2]
      simp only [htp]
      rw [if_neg had, if_neg had]
      simp
  simp only [sanitizeRun]
  rw [hsan]
  by_cases had :
      (tyIn (d.get "type") "adaptive" = true ∧ d.hasKey "budget_tokens" = true)
  · rw [if_pos had, if_pos had, if_pos had]
  · rw [if_neg had, if_neg had, if_neg had]

/-! ## Claim theorems -/

instance exceptDecEq {ε α : Type} [DecidableEq ε] [DecidableEq α] :
    DecidableEq (Except ε α) := fun a b =>
  match a, b with
  | .error e, .error f =>
    if h : e = f then isTrue (h ▸ rfl)
    else isFalse (fun hc => h (Except.error.inj hc))
  | .ok x, .ok y =>
    if h : x = y then isTrue (h ▸ rfl)
    else isFalse (fun hc => h (Except.ok.inj hc))
  | .error _, .ok _ => isFalse (fun hc => Except.noConfusion hc)
  | .ok _, .error _ => isFalse (fun hc => Except.noConfusion hc)

/-- C3: the request sanitizer is idempotent — whenever sanitizing a request
mapping returns a result `y` (the call does not raise), sanitizing `y` again
returns `y` unchanged: once temperature has been forced to 1.0, top_p clamped
into [0.95, 1.0], top_k removed and invalid keys deleted, a second pass is the
identity. -/
theorem sanitizer_idempotent {x y : Req}
    (h : sanitize_anthropic_request x = .ok y) :
    sanitize_anthropic_request y = .ok y := by
  unfold sanitize_anthropic_request at h ⊢
  cases hr : sanitizeRun x with
  | error e => rw [hr] at h; exact absurd h (by simp [Except.map])
  | ok p =>
    obtain ⟨y0, x0⟩ := p
    rw [hr] at h
    simp only [Except.map, Except.ok.injEq] at h
    subst h
    rw [run_fix (sanitized_of_run hr)]
    rfl

def x3 : Req := { Req.empty with
  temperature := some (jfloat (mkRat 3 10)), top_p := some (jfloat (mkRat 1 2)),
  top_k := some (jint 40),
  thinking := some (jobj (JObj.ofList
    [("type", jstr "enabled"), ("budget_tokens", jint 500)])),
  tools := some (jarr .nil), max_tokens := some (jint 100) }

def y3 : Req := { Req.empty with
  temperature := some (jfloat 1), top_p := some (jfloat (mkRat 19 20)),
  thinking := some (jobj (JObj.ofList
    [("type", jstr "enabled"), ("budget_tokens", jint 500)])),
  max_tokens := some (jint 100) }

/-- Witness for C3 at a concrete request (temperature 0.3, top_p 0.5,
top_k 40, empty tools list, thinking enabled). -/
theorem sanitizer_idempotent_witness :
    sanitize_anthropic_request x3 = .ok y3 ∧
    sanitize_anthropic_request y3 = .ok y3 :=
  ⟨by decide, sanitizer_idempotent (x := x3) (by decide)⟩

def x4 : Req := { Req.empty with
  thinking := some (jobj (JObj.ofList
    [("type", jstr "adaptive"), ("budget_tokens", jint 500)])) }

/-- C4 (code bug): the sanitizer shallow-copies the request
(`sanitized = request_data.copy()` shows the intent of leaving the caller's
mapping untouched) but then executes `del thinking['budget_tokens']` on the
nested dict, which the copy shares with the caller; for an adaptive thinking
request carrying a budget the caller's own mapping loses the field. -/
theorem sanitizer_mutates_caller_thinking :
    sanitizeInputAfter x4 =
      .ok { x4 with
        thinking := some (jobj (JObj.cons "type" (jstr "adaptive") .nil)) } ∧
    sanitizeInputAfter x4 ≠ .ok x4 := by decide

/-- C5: with thinking mode adaptive the sanitizer strips the token budget;
with mode enabled or adaptive it forces a present numeric temperature that
differs from 1.0 to exactly 1.0, clamps a present (valid, in [0,1]) top_p
lying outside [0.95, 1.0] into that interval, and removes top_k entirely. -/
theorem sanitizer_thinking_constraints {x y : Req} {d : JObj}
    (hth : x.thinking = some (jobj d))
    (hty : tyIn (d.get "type") "enabled" = true ∨
      tyIn (d.get "type") "adaptive" = true)
    (hok : sanitize_anthropic_request x = .ok y) :
    (tyIn (d.get "type") "adaptive" = true →
      ∃ d2, y.thinking = some (jobj d2) ∧ d2.get "budget_tokens" = none) ∧
    (∀ t qt, x.temperature = some t → toQ t = some qt → qt ≠ 1 →
      y.temperature = some (jfloat 1)) ∧
    (∀ p qp, x.top_p = some p → toQ p = some qp → 0 ≤ qp → qp ≤ 1 →
      ¬(mkRat 19 20 ≤ qp ∧ qp ≤ 1) →
      ∃ q', y.top_p = some (jfloat q') ∧ mkRat 19 20 ≤ q' ∧ q' ≤ 1) ∧
    y.top_k = none := by
  obtain ⟨tp, htp, hoktp, hrun⟩ := sanitizeRun_active hth hty
  unfold sanitize_anthropic_request at hok
  rw [hrun] at hok
  simp only [Except.map, Except.ok.injEq] at hok
  subst hok
  refine ⟨?_, ?_, ?_, rfl⟩
  · intro hadp
    by_cases hbk : d.hasKey "budget_tokens" = true
    · refine ⟨d.del "budget_tokens", ?_, ?_⟩
      · show some (jobj
          (if tyIn (d.get "type") "adaptive" = true ∧ d.hasKey "budget_tokens" = true
           then d.del "budget_tokens" else d)) = some (jobj (d.del "budget_tokens"))
        rw [if_pos ⟨hadp, hbk⟩]
      · rw [JObj.get_del]
        simp
    · refine ⟨d, ?_, ?_⟩
      · show some (jobj
          (if tyIn (d.get "type") "adaptive" = true ∧ d.hasKey "budget_tokens" = true
           then d.del "budget_tokens" else d)) = some (jobj d)
        rw [if_neg (fun hc => hbk hc.2)]
      · have hs : (d.get "budget_tokens").isSome = false := by
          simpa [JObj.hasKey] using hbk
        cases hg : d.get "budget_tokens" with
        | none => rfl
        | some v => rw [hg] at hs; exact absurd hs (by simp)
  · intro t qt ht hq hne
    show thinkTemp (uniTemperature x.temperature) = some (jfloat 1)
    have hnum : isNum t = true := by simp [isNum, hq]
    have hnn : t ≠ jnull := by
      intro hc; rw [hc] at hq; exact absurd hq (by simp [toQ])
    have hpe : pyEq t (jfloat 1) = false := by
      simp only [pyEq]
      rw [hq]
      simp [toQ, hne]
    have hUT : uniTemperature (some t) = some t := by simp [uniTemperature, hnum]
    have hTT : thinkTemp (some t) = some (jfloat 1) := by
      simp only [thinkTemp]
      rw [if_neg hnn, hpe]
      simp
    rw [ht, hUT, hTT]
  · intro p qp hp hqp h0 h1 hout
    rw [hp] at htp
    have hup : uniTopP (some p) = some p := by
      simp [uniTopP, hqp, h0, h1]
    rw [hup] at htp
    have hnn : p ≠ jnull := by
      intro hc; rw [hc] at hqp; exact absurd hqp (by simp [toQ])
    have hlt : qp < mkRat 19 20 := by
      by_contra hge
      exact hout ⟨le_of_not_lt hge, h1⟩
    have h1' : qp < 1 := lt_of_lt_of_le hlt (by norm_num)
    have : thinkTopP (some p) = .ok (some (jfloat (mkRat 19 20))) := by
      simp [thinkTopP, hnn, hqp, hout, h1', lt_asymm hlt]
    rw [this] at htp
    injection htp with htp
    refine ⟨mkRat 19 20, ?_, by decide, by decide⟩
    show tp = some (jfloat (mkRat 19 20))
    exact htp.symm

def x5 : Req := { Req.empty with
  temperature := some (jfloat (mkRat 3 10)), top_p := some (jfloat (mkRat 1 2)),
  top_k := some (jint 40),
  thinking := some (jobj (JObj.ofList
    [("type", jstr "adaptive"), ("budget_tokens", jint 500)])) }

def d5 : JObj := JObj.ofList
  [("type", jstr "adaptive"), ("budget_tokens", jint 500)]

def y5 : Req := { Req.empty with
  temperature := some (jfloat 1), top_p := some (jfloat (mkRat 19 20)),
  thinking := some (jobj (JObj.cons "type" (jstr "adaptive") .nil)) }

/-- Witness for C5: an adaptive request with budget 500, temperature 0.3,
top_p 0.5 and top_k 40. -/
theorem sanitizer_thinking_constraints_witness :
    (∃ d2, y5.thinking = some (jobj d2) ∧ d2.get "budget_tokens" = none) ∧
    y5.temperature = some (jfloat 1) ∧
    (∃ q', y5.top_p = some (jfloat q') ∧ mkRat 19 20 ≤ q' ∧ q' ≤ 1) ∧
    y5.top_k = none := by
  obtain ⟨h1, h2, h3, h4⟩ := sanitizer_thinking_constraints (x := x5) (d := d5)
    (by decide) (Or.inr (by decide)) (y := y5) (by decide)
  refine ⟨h1 (by decide), ?_, ?_, h4⟩
  · exact h2 (jfloat (mkRat 3 10)) (mkRat 3 10) (by decide) (by decide) (by decide)
  · exact h3 (jfloat (mkRat 1 2)) (mkRat 1 2) (by decide) (by decide) (by decide)
      (by decide) (by decide)

/-- C8: the unary response translator's stop-reason table — end_turn,
stop_sequence and pause_turn map to "stop"; max_tokens and the
context-window-exceeded reason (wire name `model_context_window_exceeded`)
map to "length"; tool_use maps to "tool_calls"; refusal maps to
"content_filter"; absent and every unmapped value default to "stop". -/
theorem stop_reason_table :
    map_stop_reason_to_finish_reason (some "end_turn") = "stop" ∧
    map_stop_reason_to_finish_reason (some "stop_sequence") = "stop" ∧
    map_stop_reason_to_finish_reason (some "pause_turn") = "stop" ∧
    map_stop_reason_to_finish_reason (some "max_tokens") = "length" ∧
    map_stop_reason_to_finish_reason (some "model_context_window_exceeded") = "length" ∧
    map_stop_reason_to_finish_reason (some "tool_use") = "tool_calls" ∧
    map_stop_reason_to_finish_reason (some "refusal") = "content_filter" ∧
    map_stop_reason_to_finish_reason none = "stop" ∧
    ∀ s : String, s ∉ ["end_turn", "max_tokens", "stop_sequence", "tool_use",
      "pause_turn", "refusal", "model_context_window_exceeded"] →
      map_stop_reason_to_finish_reason (some s) = "stop" := by
  refine ⟨rfl, rfl, rfl, rfl, rfl, rfl, rfl, rfl, ?_⟩
  intro s hs
  unfold map_stop_reason_to_finish_reason
  split <;> simp_all

/-- Witness for C8's defaulting branch at the unmapped value "banana". -/
theorem stop_reason_table_witness :
    map_stop_reason_to_finish_reason (some "banana") = "stop" :=
  stop_reason_table.2.2.2.2.2.2.2.2 "banana" (by decide)

/-- C1: for a complete (non-streaming) response that produced thinking blocks
and tool calls, the translator stores the FIRST signed thinking block (truthy
thinking text, string signature that is non-empty after stripping), with its
`thinking` and `signature` carried over unaltered (see `signedOf`), under
every tool-invocation id that is truthy; if no block is signed, or there are
no tool invocations, nothing is stored. -/
theorem thinking_cache_puts (tbs tcs : List JObj) :
    (∀ tb, tbs.find? signedPred = some tb →
      cachePuts tbs tcs = (toolIds tcs).map (fun tid => (tid, signedOf tb))) ∧
    (tbs.find? signedPred = none → cachePuts tbs tcs = []) ∧
    (tcs = [] → cachePuts tbs tcs = []) := by
  refine ⟨?_, ?_, ?_⟩
  · intro tb hf
    unfold cachePuts
    by_cases hne : tbs ≠ [] ∧ tcs ≠ []
    · rw [if_pos hne, hf]
    · rw [if_neg hne]
      rcases Decidable.not_and_iff_or_not.mp hne with h | h
      · push_neg at h
        rw [h] at hf
        exact absurd hf (by simp)
      · push_neg at h
        subst h
        simp [toolIds]
  · intro hf
    unfold cachePuts
    by_cases hne : tbs ≠ [] ∧ tcs ≠ []
    · rw [if_pos hne, hf]
    · rw [if_neg hne]
  · intro h
    subst h
    unfold cachePuts
    rw [if_neg (by simp)]

def tbU : JObj := JObj.ofList
  [("type", jstr "thinking"), ("thinking", jstr "T0"), ("signature", jstr "   ")]

def tbS : JObj := JObj.ofList
  [("type", jstr "thinking"), ("thinking", jstr "T1"), ("signature", jstr "sig1")]

def tcA : JObj := JObj.ofList [("id", jstr "toolu_A")]

def tcE0 : JObj := JObj.ofList [("id", jstr "")]

def tcB : JObj := JObj.ofList [("id", jstr "toolu_B")]

/-- Witness for C1: a whitespace-signed block is skipped, the first properly
signed block is stored under both truthy tool ids, and the empty id is
skipped. -/
theorem thinking_cache_puts_witness :
    cachePuts [tbU, tbS] [tcA, tcE0, tcB] =
      [(jstr "toolu_A", signedOf tbS), (jstr "toolu_B", signedOf tbS)] := by
  have h := (thinking_cache_puts [tbU, tbS] [tcA, tcE0, tcB]).1 tbS (by decide)
  rw [h]
  decide

/-- The block the modern converter produces for one tool call: one `tool_use`
block carrying the call's id and function name, with the parsed arguments as
input and the empty object on a parse failure. -/
def mkToolUseBlock (tc : JObj) : JVal :=
  match tc.getD "function" (jobj .nil) with
  | jobj f =>
    jobj (JObj.ofList [("type", jstr "tool_use"),
      ("id", tc.getD "id" (jstr "")),
      ("name", f.getD "name" (jstr "")),
      ("input",
        match f.getD "arguments" (jstr "\x7b\x7d") with
        | jstr s => (json_loads s).getD (jobj .nil)
        | v => v)])
  | _ => jnull

/-- A tool call whose `function` value is a dict (or absent) and whose
`arguments` value is a string (or absent) — the wire shape of Protocol O. -/
def wfCallB (tc : JObj) : Bool :=
  match tc.getD "function" (jobj .nil) with
  | jobj f =>
    match f.getD "arguments" (jstr "\x7b\x7d") with
    | jstr _ => true
    | _ => false
  | _ => false

theorem wfCallB_elim {tc : JObj} (h : wfCallB tc = true) :
    ∃ f s, tc.getD "function" (jobj .nil) = jobj f ∧
      f.getD "arguments" (jstr "\x7b\x7d") = jstr s := by
  unfold wfCallB at h
  cases hgf : tc.getD "function" (jobj .nil) <;> simp [hgf] at h
  case jobj f =>
    cases hga : f.getD "arguments" (jstr "\x7b\x7d") <;> simp [hga] at h
    case jstr s => exact ⟨f, s, rfl, hga⟩

theorem convertToolCall_wf {tc : JObj} (h : wfCallB tc = true) :
    convertToolCall tc = .ok (mkToolUseBlock tc) := by
  obtain ⟨f, s, hf, ha⟩ := wfCallB_elim h
  unfold convertToolCall mkToolUseBlock
  simp only [hf, ha, json_loads_py]

/-- C2 (amended): the modern tool_calls conversion never raises on well-shaped
calls and produces exactly one `tool_use` block per call, carrying the call's
id and function name, with an argument string that fails to parse degrading to
the empty object `{}`; the legacy singular function_call conversion parses its
argument string without a guard — it succeeds on valid JSON but raises
(propagates the decode error) on invalid JSON. -/
theorem tool_call_conversion :
    (∀ tcs : List JObj, (∀ tc ∈ tcs, wfCallB tc = true) →
      convert_openai_tool_calls_to_anthropic tcs = .ok (tcs.map mkToolUseBlock)) ∧
    (∀ tc f s, tc.getD "function" (jobj .nil) = jobj f →
      f.getD "arguments" (jstr "\x7b\x7d") = jstr s → json_loads s = none →
      mkToolUseBlock tc = jobj (JObj.ofList [("type", jstr "tool_use"),
        ("id", tc.getD "id" (jstr "")), ("name", f.getD "name" (jstr "")),
        ("input", jobj .nil)])) ∧
    (∀ fc n s v, fc.getD "name" (jstr "") = jstr n →
      fc.getD "arguments" (jstr "\x7b\x7d") = jstr s → json_loads s = some v →
      convert_openai_function_call_to_anthropic fc =
        .ok [jobj (JObj.ofList [("type", jstr "tool_use"),
          ("id", jstr (String.append "func_" n)), ("name", jstr n),
          ("input", v)])]) ∧
    (∀ fc n s, fc.getD "name" (jstr "") = jstr n →
      fc.getD "arguments" (jstr "\x7b\x7d") = jstr s → json_loads s = none →
      convert_openai_function_call_to_anthropic fc = .error ()) := by
  refine ⟨?_, ?_, ?_, ?_⟩
  · intro tcs
    induction tcs with
    | nil => intro; rfl
    | cons tc rest ih =>
      intro h
      have h1 := convertToolCall_wf (h tc (List.mem_cons_self tc rest))
      have h2 := ih (fun u hu => h u (List.mem_cons_of_mem _ hu))
      unfold convert_openai_tool_calls_to_anthropic
      rw [h1, h2]
      rfl
  · intro tc f s hf ha hp
    unfold mkToolUseBlock
    simp only [hf, ha, hp, Option.getD_none]
  · intro fc n s v hn ha hp
    unfold convert_openai_function_call_to_anthropic
    simp only [hn, ha, json_loads_py, hp]
  · intro fc n s hn ha hp
    unfold convert_openai_function_call_to_anthropic
    simp only [hn, ha, json_loads_py, hp]

/-- Counterexample for C2 as stated: the legacy singular function_call
conversion raises on the invalid argument string from the spec's own example
instead of degrading to the empty object. -/
theorem legacy_function_call_raises :
    convert_openai_function_call_to_anthropic
      (JObj.ofList [("name", jstr "f"), ("arguments", jstr "\x7bbad json")]) =
      .error () := by decide

def tcBad : JObj := JObj.ofList
  [("id", jstr "call_1"),
   ("function", jobj (JObj.ofList
     [("name", jstr "f"), ("arguments", jstr "\x7bbad json")]))]

/-- Witness for C2 (amended): the modern conversion of a single call with the
invalid argument string succeeds with input `{}`. -/
theorem tool_call_conversion_witness :
    convert_openai_tool_calls_to_anthropic [tcBad] =
      .ok [jobj (JObj.ofList [("type", jstr "tool_use"),
        ("id", jstr "call_1"), ("name", jstr "f"),
        ("input", jobj .nil)])] := by
  have h := tool_call_conversion.1 [tcBad] (by decide)
  rw [h]
  decide

/-- C6: the composed capability-header token sequence has no duplicate
tokens; all engine-required tokens come first, in the fixed order of
`requiredFrom`, followed by the client-supplied tokens in their original
relative order with any token already present skipped (first occurrence
wins, as computed by `dedupAcc`); and composing twice with the same inputs
yields the same sequence. -/
theorem beta_header_composition {req : Req} {client : String}
    {rl : Option String} {use1m : Bool} {l : List String}
    (h : buildBetaList req (some client) rl use1m = .ok l) :
    l.Nodup ∧
    (∃ reqd, requiredBetaList req rl use1m = .ok reqd ∧
      l = reqd ++ dedupAcc reqd (if client = "" then [] else splitClient client)) ∧
    buildBetaList req (some client) rl use1m =
      buildBetaList req (some client) rl use1m := by
  unfold buildBetaList at h
  cases hr : requiredBetaList req rl use1m with
  | error e => rw [hr] at h; exact absurd h (by simp)
  | ok reqd =>
    rw [hr] at h
    simp only [Except.ok.injEq] at h
    subst h
    have hnd := requiredBetaList_nodup hr
    refine ⟨?_, ⟨reqd, ?_, ?_⟩, rfl⟩
    · unfold mergeClient
      show (if client = "" then reqd else pyFromKeys (reqd ++ splitClient client)).Nodup
      by_cases hc : client = ""
      · rw [if_pos hc]; exact hnd
      · rw [if_neg hc]; exact pyFromKeys_nodup _
    · first
      | exact hr
      | rfl
    · unfold mergeClient
      show (if client = "" then reqd else pyFromKeys (reqd ++ splitClient client)) =
        reqd ++ dedupAcc reqd (if client = "" then [] else splitClient client)
      by_cases hc : client = ""
      · rw [if_pos hc, if_pos hc]
        simp [dedupAcc]
      · rw [if_neg hc, if_neg hc]
        exact pyFromKeys_decomp reqd (splitClient client) hnd

def reqC6 : Req := { Req.empty with
  tools := some (jarr (JArr.cons (jobj (JObj.ofList
    [("type", jstr "custom"), ("name", jstr "f"), ("description", jstr "d")]))
    .nil)) }

def clientC6 : String := "oauth-2025-04-20,custom-beta , custom-beta"

def lC6 : List String :=
  ["oauth-2025-04-20", "claude-code-20250219",
   "fine-grained-tool-streaming-2025-05-14", "custom-beta"]

/-- Witness for C6: a client header repeating a mandatory token and its own
token twice composes without duplicates, required tokens first. -/
theorem beta_header_composition_witness :
    buildBetaList reqC6 (some clientC6) none false = .ok lC6 ∧ lC6.Nodup := by
  have h := @beta_header_composition reqC6 clientC6 none false lC6 (by decide)
  exact ⟨by decide, h.1⟩

theorem requiredFrom_adv_mem :
    ∀ b1 b2 b3 b4 b5 b6 : Bool,
      ("advanced-tool-use-2025-11-20" ∈ requiredFrom b1 b2 b3 b4 b5 b6) ↔
        b4 = true := by
  decide

/-- C7 counterexample: a tool whose `defer_loading` advanced property sits on
its nested function definition satisfies `tool_converter.
has_advanced_tool_features`, yet the header composer (which uses its own
`_has_advanced_tool_features`, checking only the tool dict itself) does not
append the advanced-tool-use token. -/
theorem advanced_tool_token_mismatch :
    has_advanced_tool_features [jobj (JObj.ofList
      [("type", jstr "function"),
       ("function", jobj (JObj.ofList [("defer_loading", jbool true)]))])] =
      .ok true ∧
    requiredBetaList { Req.empty with
      tools := some (jarr (JArr.cons (jobj (JObj.ofList
        [("type", jstr "function"),
         ("function", jobj (JObj.ofList [("defer_loading", jbool true)]))]))
        .nil)) } none false =
      .ok ["oauth-2025-04-20", "claude-code-20250219",
        "fine-grained-tool-streaming-2025-05-14"] ∧
    "advanced-tool-use-2025-11-20" ∉
      ["oauth-2025-04-20", "claude-code-20250219",
       "fine-grained-tool-streaming-2025-05-14"] := by decide

/-- C7 (amended): the composer appends the advanced-tool-use token exactly
when its own `_has_advanced_tool_features` check accepts a truthy tools list
— that check is true iff some tool (a dict) has one of the three advanced
special types or carries an advanced property on the tool dict itself; the
memory type and the nested function definition are NOT considered, unlike
`tool_converter.has_advanced_tool_features`, which the composer does not
use. -/
theorem advanced_tool_token_condition :
    (∀ (req : Req) (rl : Option String) (use1m : Bool) (l : List String),
      requiredBetaList req rl use1m = .ok l →
      ("advanced-tool-use-2025-11-20" ∈ l ↔ toolsAdvFlag req = .ok true)) ∧
    (∀ ts : List JVal, (∀ t ∈ ts, ∃ d, t = jobj d) →
      (hasAdvBetaLoop ts = .ok true ↔
        ∃ d, jobj d ∈ ts ∧ (typeMem (d.get "type") ADVANCED_TOOL_TYPES = true ∨
          ADVANCED_TOOL_PROPERTIES.any d.hasKey = true))) := by
  constructor
  · intro req rl use1m l h
    obtain ⟨adv, te, eff, mem, hadv, -, -, -, hl⟩ := requiredBetaList_shape h
    rw [hl, requiredFrom_adv_mem]
    constructor
    · intro ha
      rw [ha] at hadv
      exact hadv
    · intro ha
      rw [ha] at hadv
      exact (Except.ok.inj hadv).symm
  · intro ts
    induction ts with
    | nil =>
      intro
      constructor
      · intro hc; exact absurd hc (by simp [hasAdvBetaLoop])
      · rintro ⟨d, hd, -⟩; exact absurd hd (by simp)
    | cons t rest ih =>
      intro hsh
      obtain ⟨d, rfl⟩ := hsh t (List.mem_cons_self t rest)
      constructor
      · intro hc
        unfold hasAdvBetaLoop at hc
        by_cases h1 : typeMem (d.get "type") ADVANCED_TOOL_TYPES = true
        · exact ⟨d, List.mem_cons_self _ _, Or.inl h1⟩
        · rw [if_neg h1] at hc
          by_cases h2 : ADVANCED_TOOL_PROPERTIES.any d.hasKey = true
          · exact ⟨d, List.mem_cons_self _ _, Or.inr h2⟩
          · rw [if_neg h2] at hc
            obtain ⟨d2, hmem, hp⟩ :=
              (ih (fun u hu => hsh u (List.mem_cons_of_mem _ hu))).mp hc
            exact ⟨d2, List.mem_cons_of_mem _ hmem, hp⟩
      · intro ⟨d2, hmem, hp⟩
        unfold hasAdvBetaLoop
        rcases List.mem_cons.mp hmem with heq | hmem'
        · by_cases h1 : typeMem (d.get "type") ADVANCED_TOOL_TYPES = true
          · rw [if_pos h1]
          · rw [if_neg h1]
            have hd2 : d2 = d := by
              injection heq
            subst hd2
            rcases hp with hp | hp
            · exact absurd hp h1
            · rw [if_pos hp]
        · by_cases h1 : typeMem (d.get "type") ADVANCED_TOOL_TYPES = true
          · rw [if_pos h1]
          · rw [if_neg h1]
            by_cases h2 : ADVANCED_TOOL_PROPERTIES.any d.hasKey = true
            · rw [if_pos h2]
            · rw [if_neg h2]
              exact (ih (fun u hu => hsh u (List.mem_cons_of_mem _ hu))).mpr
                ⟨d2, hmem', hp⟩

def reqC7 : Req := { Req.empty with
  tools := some (jarr (JArr.cons (jobj (JObj.ofList
    [("type", jstr "custom"), ("name", jstr "f"),
     ("defer_loading", jbool true)])) .nil)) }

/-- Witness for C7 (amended): a tool carrying `defer_loading` on the tool dict
itself makes the composer emit the advanced-tool-use token. -/
theorem advanced_tool_token_condition_witness :
    "advanced-tool-use-2025-11-20" ∈
      ["oauth-2025-04-20", "claude-code-20250219",
       "fine-grained-tool-streaming-2025-05-14", "advanced-tool-use-2025-11-20"] ∧
    toolsAdvFlag reqC7 = .ok true := by
  have h := advanced_tool_token_condition.1 reqC7 none false
    ["oauth-2025-04-20", "claude-code-20250219",
     "fine-grained-tool-streaming-2025-05-14", "advanced-tool-use-2025-11-20"]
    (by decide)
  exact ⟨by decide, h.mp (by decide)⟩

/-- C9: when thinking is enabled with an explicit positive token budget `B`
and the incoming request carries `max_tokens = M`, the prepared backend
request satisfies `max_tokens ≥ B + 1024`: it is left unchanged when `M` is
already at least `B + 1024` and raised to exactly `B + 1024` otherwise.  The
system-message injection and prompt-caching steps (outside `src/`) are
quantified over, with the spec-given frame condition that they do not touch
`max_tokens`. -/
theorem prepared_max_tokens
    (injthink : Option JVal → Option JVal) (injectCC addCache : Req → Req)
    (hCC : ∀ s, (injectCC s).max_tokens = s.max_tokens)
    (hPC : ∀ s, (addCache s).max_tokens = s.max_tokens)
    {r y : Req} {d : JObj} {B M : Int}
    (hth : r.thinking = some (jobj d))
    (hty : tyIn (d.get "type") "enabled" = true)
    (hb : d.get "budget_tokens" = some (jint B)) (hBpos : 0 < B)
    (hm : r.max_tokens = some (jint M))
    (hok : prepare_anthropic_request injthink injectCC addCache r = .ok y) :
    (M < B + 1024 → y.max_tokens = some (jint (B + 1024))) ∧
    (B + 1024 ≤ M → y.max_tokens = some (jint M)) ∧
    (∀ M', y.max_tokens = some (jint M') → B + 1024 ≤ M') := by
  have hBt : pyTruthy (jint B) = true := by
    simp only [pyTruthy, decide_eq_true_eq]
    omega
  have hadj : adjustMaxTokens injthink r = .ok { r with
      max_tokens := some (jint (if M < B + 1024 then B + 1024 else M))
      messages := injthink r.messages } := by
    unfold adjustMaxTokens
    simp only [hth, hb, hm]
    rw [if_pos ⟨truthy_of_tyIn hty, Or.inl hty⟩, if_pos hBt]
    show (if ((M : Int) : ℚ) < (((B + 1024 : Int)) : ℚ) then _ else _) = _
    by_cases hcmp : M < B + 1024
    · rw [if_pos (by exact_mod_cast hcmp), if_pos hcmp]
      rfl
    · rw [if_neg (by exact_mod_cast hcmp), if_neg hcmp]
  unfold prepare_anthropic_request at hok
  rw [hadj] at hok
  have hok2 : (match sanitize_anthropic_request { r with
      max_tokens := some (jint (if M < B + 1024 then B + 1024 else M))
      messages := injthink r.messages } with
    | Except.error e => Except.error e
    | Except.ok r2 => Except.ok (addCache (injectCC r2))) = Except.ok y := hok
  cases hs : sanitize_anthropic_request { r with
      max_tokens := some (jint (if M < B + 1024 then B + 1024 else M))
      messages := injthink r.messages } with
  | error e => rw [hs] at hok2; exact absurd hok2 (by simp)
  | ok r2 =>
    rw [hs] at hok2
    simp only [Except.ok.injEq] at hok2
    subst hok2
    have hr2 : r2.max_tokens = some (jint (if M < B + 1024 then B + 1024 else M)) := by
      unfold sanitize_anthropic_request at hs
      cases hrr : sanitizeRun { r with
          max_tokens := some (jint (if M < B + 1024 then B + 1024 else M))
          messages := injthink r.messages } with
      | error e => rw [hrr] at hs; exact absurd hs (by simp [Except.map])
      | ok p =>
        obtain ⟨ya, xa⟩ := p
        rw [hrr] at hs
        simp only [Except.map, Except.ok.injEq] at hs
        subst hs
        exact sanitizeRun_max_tokens hrr
    have hy : (addCache (injectCC r2)).max_tokens =
        some (jint (if M < B + 1024 then B + 1024 else M)) := by
      rw [hPC, hCC, hr2]
    refine ⟨?_, ?_, ?_⟩
    · intro hlt
      rw [hy, if_pos hlt]
    · intro hle
      rw [hy, if_neg (by omega)]
    · intro M' hM'
      rw [hy] at hM'
      by_cases hlt : M < B + 1024
      · rw [if_pos hlt] at hM'
        injection hM' with hM'
        injection hM' with hM'
        omega
      · rw [if_neg hlt] at hM'
        injection hM' with hM'
        injection hM' with hM'
        omega

def r9 : Req := { Req.empty with
  thinking := some (jobj (JObj.ofList
    [("type", jstr "enabled"), ("budget_tokens", jint 2000)])),
  max_tokens := some (jint 1000) }

/-- Witness for C9: budget 2000, incoming max_tokens 1000, prepared
max_tokens raised to 3024 (with identity collaborators). -/
theorem prepared_max_tokens_witness :
    ∃ y, prepare_anthropic_request id id id r9 = .ok y ∧
      y.max_tokens = some (jint 3024) := by
  have h := prepared_max_tokens (r := r9)
    (d := JObj.ofList [("type", jstr "enabled"), ("budget_tokens", jint 2000)])
    (B := 2000) (M := 1000)
    id id id (fun _ => rfl) (fun _ => rfl)
    (by decide) (by decide) (by decide) (by decide) (by decide)
    (y := { Req.empty with
      thinking := some (jobj (JObj.ofList
        [("type", jstr "enabled"), ("budget_tokens", jint 2000)])),
      max_tokens := some (jint 3024) }) (by decide)
  exact ⟨_, by decide, h.1 (by decide)⟩

/-! ### C10 helpers: structured usage events -/

def msgStartEvent (I CR CC : Int) : JVal :=
  jobj (JObj.ofList [("type", jstr "message_start"),
    ("message", jobj (JObj.ofList [("usage", jobj (JObj.ofList
      [("input_tokens", jint I), ("cache_read_input_tokens", jint CR),
       ("cache_creation_input_tokens", jint CC)]))]))])

def msgDeltaEvent (O : Int) : JVal :=
  jobj (JObj.ofList [("type", jstr "message_delta"),
    ("usage", jobj (JObj.ofList [("output_tokens", jint O)]))])

theorem updateUsage_start (u : StreamUsage) (I CR CC : Int) :
    updateUsage u (msgStartEvent I CR CC) = .ok { u with
      input_tokens := jint I
      cache_read_input_tokens := jint CR
      cache_creation_input_tokens := jint CC } := by
  rfl

theorem updateUsage_delta (u : StreamUsage) (O : Int) :
    updateUsage u (msgDeltaEvent O) =
      .ok (if O = 0 then u else { u with output_tokens := jint O }) := by
  by_cases h : O = 0
  · subst h
    rw [if_pos rfl]
    rfl
  · rw [if_neg h]
    have ht : pyTruthy ((JObj.ofList
        [("output_tokens", jint O)]).getD "output_tokens" jnull) = true := by
      show pyTruthy (jint O) = true
      simp [pyTruthy, h]
    show (if pyTruthy ((JObj.ofList
          [("output_tokens", jint O)]).getD "output_tokens" jnull) = true
        then Except.ok { u with output_tokens := (JObj.ofList
          [("output_tokens", jint O)]).getD "output_tokens" (jint 0) }
        else Except.ok u) = Except.ok { u with output_tokens := jint O }
    rw [if_pos ht]
    rfl

theorem processLines_skip (u : StreamUsage) :
    ∀ ls : List (List Char), (∀ l ∈ ls, dataPrefixP l = none) →
      processLines u ls = .ok u
  | [], _ => rfl
  | l :: rest, h => by
    unfold processLines
    rw [h l (List.mem_cons_self l rest)]
    exact processLines_skip u rest (fun u2 hu => h u2 (List.mem_cons_of_mem _ hu))

theorem processLines_one (u u2 : StreamUsage) (data : JVal) (pay : List Char) :
    ∀ (pre : List (List Char)) (dl : List Char) (post : List (List Char)),
      (∀ l ∈ pre, dataPrefixP l = none) → dataPrefixP dl = some pay →
      json_loads (String.mk pay) = some data → updateUsage u data = .ok u2 →
      (∀ l ∈ post, dataPrefixP l = none) →
      processLines u (pre ++ dl :: post) = .ok u2
  | [], dl, post, _, hd, hj, hup, hpost => by
    show processLines u (dl :: post) = .ok u2
    unfold processLines
    simp only [hd, hj, hup]
    exact processLines_skip u2 post hpost
  | l :: pre, dl, post, hpre, hd, hj, hup, hpost => by
    show processLines u (l :: (pre ++ dl :: post)) = .ok u2
    unfold processLines
    rw [hpre l (List.mem_cons_self l pre)]
    exact processLines_one u u2 data pay pre dl post
      (fun u3 hu => hpre u3 (List.mem_cons_of_mem _ hu)) hd hj hup hpost

theorem processChunk_skip (u : StreamUsage) (c : String)
    (h : c = "" ∨ infixList "\"usage\"".toList c.toList = false) :
    processChunk u c = .ok u := by
  unfold processChunk
  rcases h with h | h
  · rw [if_neg (fun hc => hc.1 h)]
  · rw [if_neg (fun hc => by rw [h] at hc; exact Bool.noConfusion hc.2)]

theorem runTracked_mids (u : StreamUsage) :
    ∀ (mids : List String) (tl : List String),
      (∀ c ∈ mids, c = "" ∨ infixList "\"usage\"".toList c.toList = false) →
      runTracked u (mids ++ tl) =
        (match runTracked u tl with
         | .error e => .error e
         | .ok (outs, uf) => .ok (mids ++ outs, uf))
  | [], tl, _ => by
    show runTracked u tl = _
    cases htl : runTracked u tl with
    | error e => rfl
    | ok p =>
      obtain ⟨outs, uf⟩ := p
      rfl
  | c :: mids, tl, h => by
    have hskip := processChunk_skip u c (h c (List.mem_cons_self c mids))
    have hrec := runTracked_mids u mids tl
      (fun c2 hc => h c2 (List.mem_cons_of_mem _ hc))
    show (match processChunk u c with
      | Except.error e => Except.error e
      | Except.ok u2 =>
        match runTracked u2 (mids ++ tl) with
        | Except.error e => Except.error e
        | Except.ok (outs, uf) => Except.ok (c :: outs, uf)) = _
    rw [hskip]
    show (match runTracked u (mids ++ tl) with
      | Except.error e => Except.error e
      | Except.ok (outs, uf) => Except.ok (c :: outs, uf)) = _
    rw [hrec]
    cases htl : runTracked u tl with
    | error e => rfl
    | ok p =>
      obtain ⟨outs, uf⟩ := p
      rfl

/-- C10: over a backend event stream whose `message_start` event carries
`usage.input_tokens = I` (with the cache counters) and whose `message_delta`
event carries `usage.output_tokens = O`, the streaming side channel forwards
every chunk unchanged and ends with the usage record
`⟨I, O, cache-read, cache-creation⟩`; the usage callback fires exactly when
`I > 0` or `O > 0`. -/
theorem stream_usage_side_channel
    (I O CR CC : Int) (c1 c2 : String) (mids : List String)
    (pre1 post1 pre2 post2 : List (List Char)) (dl1 dl2 pay1 pay2 : List Char)
    (h1c : c1 ≠ "") (h1u : infixList "\"usage\"".toList c1.toList = true)
    (h1s : splitCharsOn '\n' c1.toList = pre1 ++ dl1 :: post1)
    (h1pre : ∀ l ∈ pre1, dataPrefixP l = none)
    (h1post : ∀ l ∈ post1, dataPrefixP l = none)
    (h1d : dataPrefixP dl1 = some pay1)
    (h1j : json_loads (String.mk pay1) = some (msgStartEvent I CR CC))
    (h2c : c2 ≠ "") (h2u : infixList "\"usage\"".toList c2.toList = true)
    (h2s : splitCharsOn '\n' c2.toList = pre2 ++ dl2 :: post2)
    (h2pre : ∀ l ∈ pre2, dataPrefixP l = none)
    (h2post : ∀ l ∈ post2, dataPrefixP l = none)
    (h2d : dataPrefixP dl2 = some pay2)
    (h2j : json_loads (String.mk pay2) = some (msgDeltaEvent O))
    (hm : ∀ c ∈ mids, c = "" ∨ infixList "\"usage\"".toList c.toList = false) :
    runTracked initUsage (c1 :: mids ++ [c2]) =
      .ok (c1 :: mids ++ [c2], ⟨jint I, jint O, jint CR, jint CC⟩) ∧
    ((usageCallbackFires ⟨jint I, jint O, jint CR, jint CC⟩ = .ok true) ↔
      (0 < I ∨ 0 < O)) := by
  have hu1 : processChunk initUsage c1 = .ok ⟨jint I, jint 0, jint CR, jint CC⟩ := by
    unfold processChunk
    rw [if_pos ⟨h1c, h1u⟩, h1s]
    exact processLines_one initUsage _ _ pay1 pre1 dl1 post1 h1pre h1d h1j
      (updateUsage_start initUsage I CR CC) h1post
  have hu2 : processChunk ⟨jint I, jint 0, jint CR, jint CC⟩ c2 =
      .ok ⟨jint I, jint O, jint CR, jint CC⟩ := by
    unfold processChunk
    rw [if_pos ⟨h2c, h2u⟩, h2s]
    refine processLines_one _ _ _ pay2 pre2 dl2 post2 h2pre h2d h2j ?_ h2post
    rw [updateUsage_delta]
    by_cases hO : O = 0
    · subst hO
      rw [if_pos rfl]
    · rw [if_neg hO]
  have hlast : runTracked ⟨jint I, jint 0, jint CR, jint CC⟩ [c2] =
      .ok ([c2], ⟨jint I, jint O, jint CR, jint CC⟩) := by
    show (match processChunk ⟨jint I, jint 0, jint CR, jint CC⟩ c2 with
      | Except.error e => Except.error e
      | Except.ok u2 =>
        match runTracked u2 [] with
        | Except.error e => Except.error e
        | Except.ok (outs, uf) => Except.ok (c2 :: outs, uf)) = _
    rw [hu2]
    rfl
  constructor
  · show (match processChunk initUsage c1 with
      | Except.error e => Except.error e
      | Except.ok u2 =>
        match runTracked u2 (mids ++ [c2]) with
        | Except.error e => Except.error e
        | Except.ok (outs, uf) => Except.ok (c1 :: outs, uf)) = _
    rw [hu1]
    show (match runTracked ⟨jint I, jint 0, jint CR, jint CC⟩ (mids ++ [c2]) with
      | Except.error e => Except.error e
      | Except.ok (outs, uf) => Except.ok (c1 :: outs, uf)) = _
    rw [runTracked_mids _ mids [c2] hm, hlast]
    rfl
  · have hgi : gtZeroTok (jint I) = .ok (decide (0 < I)) := by
      unfold gtZeroTok
      show Except.ok (decide ((0 : ℚ) < (I : ℚ))) = .ok (decide (0 < I))
      congr 1
      refine decide_eq_decide.mpr ?_
      exact_mod_cast Iff.rfl
    have hgo : gtZeroTok (jint O) = .ok (decide (0 < O)) := by
      unfold gtZeroTok
      show Except.ok (decide ((0 : ℚ) < (O : ℚ))) = .ok (decide (0 < O))
      congr 1
      refine decide_eq_decide.mpr ?_
      exact_mod_cast Iff.rfl
    have hfires : usageCallbackFires ⟨jint I, jint O, jint CR, jint CC⟩ =
        .ok (decide (0 < I) || decide (0 < O)) := by
      unfold usageCallbackFires
      rw [show (⟨jint I, jint O, jint CR, jint CC⟩ : StreamUsage).input_tokens =
        jint I from rfl, hgi]
      by_cases hI : 0 < I
      · rw [decide_eq_true hI]
        simp
      · rw [decide_eq_false hI]
        rw [show (⟨jint I, jint O, jint CR, jint CC⟩ : StreamUsage).output_tokens =
          jint O from rfl]
        show gtZeroTok (jint O) = _
        rw [hgo]
        simp
    rw [hfires]
    simp


/-- Concrete stream for the C10 witness: the `message_start` chunk. -/
def c10json1 : String :=
  "\x7b\"type\":\"message_start\",\"message\":\x7b\"usage\":\x7b\"input_tokens\":100,\"cache_read_input_tokens\":7,\"cache_creation_input_tokens\":3\x7d\x7d\x7d"

/-- Concrete stream for the C10 witness: the `message_delta` chunk. -/
def c10json2 : String :=
  "\x7b\"type\":\"message_delta\",\"usage\":\x7b\"output_tokens\":42\x7d\x7d"

def c10chunk1 : String := "event: message_start\ndata: " ++ c10json1 ++ "\n"

def c10chunk2 : String := "event: message_delta\ndata: " ++ c10json2 ++ "\n"

/-- A mid-stream chunk with no `"usage"` substring: skipped by the prefilter. -/
def c10mid : String := "event: ping\ndata: \x7b\"type\":\"ping\"\x7d\n"

set_option maxRecDepth 40000 in
theorem stream_usage_side_channel_witness :
    runTracked initUsage (c10chunk1 :: [c10mid] ++ [c10chunk2]) =
      .ok (c10chunk1 :: [c10mid] ++ [c10chunk2],
        ⟨jint 100, jint 42, jint 7, jint 3⟩) ∧
    ((usageCallbackFires ⟨jint 100, jint 42, jint 7, jint 3⟩ = .ok true) ↔
      (0 < (100 : Int) ∨ 0 < (42 : Int))) :=
  stream_usage_side_channel 100 42 7 3 c10chunk1 c10chunk2 [c10mid]
    ["event: message_start".toList] [[]]
    ["event: message_delta".toList] [[]]
    ("data: " ++ c10json1).toList ("data: " ++ c10json2).toList
    c10json1.toList c10json2.toList
    (by decide) (by decide) (by decide) (by decide) (by decide)
    (by decide) (by decide) (by decide) (by decide) (by decide)
    (by decide) (by decide) (by decide) (by decide) (by decide)

end LLMux
